import Mathlib

/-!
Shallow embedding of the picosdk-malloc heap library.

The library provides a malloc/free-managed exclusive box, 'Heap' (src/heap.rs),
a reference-counted shared box, 'HeapRef', with weak observers, 'HeapRefWeak'
(src/heapref.rs), and a process-wide allocated-bytes tracing counter
(src/trace.rs).

Modelling choices:
* A pointer is a natural number; 0 is the null pointer (malloc failure).
* Machine state 'St' is the list of live allocations (address, byte size,
  content) together with the tracing counter ALLOCATED_BYTES.
* malloc is nondeterministic: each allocating operation takes the address the
  allocator would return as an extra oracle argument (0 models failure);
  theorems carry the freshness side conditions a real allocator guarantees.
* A memory cell holds either uninitialized bytes, a value of the boxed type T,
  or a RefCounter record (the two monomorphizations the library uses).
* Rust panics (the assert in Heap::from_raw, the expect in inner) are
  modelled as Option.none results.
-/

namespace PicoMalloc

instance {E A : Type} [DecidableEq E] [DecidableEq A] : DecidableEq (Except E A)
  | Except.error e, Except.error f => decidable_of_iff (e = f) (by simp)
  | Except.error _, Except.ok _ => isFalse (by simp)
  | Except.ok _, Except.error _ => isFalse (by simp)
  | Except.ok a, Except.ok b => decidable_of_iff (a = b) (by simp)

/-- A shared reference counter, src/heapref.rs lines 11-16: the number of
strong and of weak references. -/
structure RefCounter where
  strong : Nat
  weak : Nat
deriving DecidableEq, Repr

/-- Content of one allocation: uninitialized memory (fresh from malloc),
a value of the boxed type, or a reference-counter record. -/
inductive Cell (T : Type) where
  | uninit
  | value (v : T)
  | counter (c : RefCounter)
deriving DecidableEq

/-- One live allocation: its address, its byte size, and its content. -/
structure Alloc (T : Type) where
  addr : Nat
  size : Nat
  cell : Cell T
deriving DecidableEq

/-- Machine state: the live allocations plus the tracing counter
ALLOCATED_BYTES of src/trace.rs. -/
structure St (T : Type) where
  mem : List (Alloc T)
  traced : Nat
deriving DecidableEq

/-- The first live allocation at address p, if any. -/
def St.lookup (s : St T) (p : Nat) : Option (Alloc T) :=
  s.mem.find? (fun a => a.addr = p)

/-- Whether some allocation is live at address p. -/
def St.isAlive (s : St T) (p : Nat) : Bool :=
  (s.lookup p).isSome

/-- The C free: remove the allocation at address p. -/
def St.free (s : St T) (p : Nat) : St T :=
  { s with mem := s.mem.eraseP (fun a => a.addr = p) }

/-- Overwrite the content of the allocation at address p. -/
def St.write (s : St T) (p : Nat) (c : Cell T) : St T :=
  { s with mem := s.mem.map (fun a => if a.addr = p then { a with cell := c } else a) }

/-- trace::increment_allocated, src/trace.rs lines 25-31. -/
def St.incTrace (s : St T) (bytes : Nat) : St T :=
  { s with traced := s.traced + bytes }

/-- trace::decrement_allocated, src/trace.rs lines 39-45. -/
def St.decTrace (s : St T) (bytes : Nat) : St T :=
  { s with traced := s.traced - bytes }

/-- Address list of a state. -/
def St.addrs (s : St T) : List Nat :=
  s.mem.map (fun a => a.addr)

/-- Well-formedness of the allocator state: live addresses are pairwise
distinct (a real allocator never hands out the same address twice while it
is still live). -/
def St.addrNodup (s : St T) : Prop :=
  s.addrs.Nodup

instance (s : St T) : Decidable s.addrNodup := by
  unfold St.addrNodup
  infer_instance

/-- The exclusive heap box, src/heap.rs lines 20-24: transparent wrapper
around the raw heap pointer. -/
structure Heap where
  memory : Nat
deriving DecidableEq, Repr

/-- Heap::new_uninit, src/heap.rs lines 27-37: malloc sz bytes (the oracle
argument ptr is what malloc returns, 0 on failure); on success trace the
memory and return the handle. -/
def Heap.new_uninit (sz : Nat) (ptr : Nat) (s : St T) : Option Heap × St T :=
  if ptr = 0 then (none, s)
  else (some ⟨ptr⟩, (St.incTrace { s with mem := ⟨ptr, sz, Cell.uninit⟩ :: s.mem } sz))

/-- Heap::assume_init, src/heap.rs lines 45-52: pure pointer cast, the
address is unchanged. -/
def Heap.assume_init (h : Heap) : Heap :=
  ⟨h.memory⟩

/-- Heap::new, src/heap.rs lines 59-69: new_uninit, then write the value,
then assume_init; on allocation failure return the original value. -/
def Heap.new (sz : Nat) (v : T) (ptr : Nat) (s : St T) : Except T Heap × St T :=
  match Heap.new_uninit sz ptr s with
  | (none, s1) => (Except.error v, s1)
  | (some this, s1) => (Except.ok this.assume_init, s1.write this.memory (Cell.value v))

/-- Heap::from_raw, src/heap.rs lines 75-78: assert the pointer is not null
(none models the panic), then wrap it. -/
def Heap.from_raw (ptr : Nat) : Option Heap :=
  if ptr = 0 then none else some ⟨ptr⟩

/-- Projects the value content of a cell, if any. -/
def Cell.asValue : Cell T → Option T
  | Cell.value v => some v
  | _ => none

/-- Reads the value stored at address p; none models the undefined behavior
of reading memory that does not hold a value of type T. -/
def St.readValue (s : St T) (p : Nat) : Option T :=
  (s.lookup p).bind (fun a => a.cell.asValue)

/-- Heap::into_inner, src/heap.rs lines 81-93: read the element out, free
the allocation, decrement the tracer by sz. -/
def Heap.into_inner (sz : Nat) (h : Heap) (s : St T) : Option T × St T :=
  (s.readValue h.memory, (s.free h.memory).decTrace sz)

/-- Heap::into_raw, src/heap.rs lines 99-104: destructure self and forget
it; nothing is freed and the tracer is untouched, so the model is a pure
projection of the address. -/
def Heap.into_raw (h : Heap) : Nat :=
  h.memory

/-- Drop for Heap, src/heap.rs lines 175-185: drop the element in place,
free the memory, decrement the tracer by sz. -/
def Heap.drop (sz : Nat) (h : Heap) (s : St T) : St T :=
  (s.free h.memory).decTrace sz

/-- Heap::inner, src/heap.rs lines 107-110: none models the expect-abort on
a null internal pointer; on a non-null pointer the cell the pointer refers
to is returned (a dangling non-null pointer is undefined behavior in the
source and is mapped to the uninit cell here). -/
def Heap.inner (h : Heap) (s : St T) : Option (Cell T) :=
  if h.memory = 0 then none
  else some (((s.lookup h.memory).map (fun a => a.cell)).getD Cell.uninit)

/-- OVERHEAD, src/heapref.rs line 19: size_of RefCounter, two usize fields
of 4 bytes each on the 32-bit rp2040 target. -/
def OVERHEAD : Nat := 8

/-- The reference counted heap box, src/heapref.rs lines 22-27: the value
pointer and the reference-counter pointer. -/
structure HeapRef where
  value : Nat
  refctr : Nat
deriving DecidableEq, Repr

/-- A weak reference, src/heapref.rs lines 151-156: the same pointer pair. -/
structure HeapRefWeak where
  value : Nat
  refctr : Nat
deriving DecidableEq, Repr

/-- Projects the counter content of a cell, if any. -/
def Cell.asCounter : Cell T → Option RefCounter
  | Cell.counter c => some c
  | _ => none

/-- The counter record stored at address p, if p refers to a live
RefCounter allocation. -/
def St.counterAt (s : St T) (p : Nat) : Option RefCounter :=
  (s.lookup p).bind (fun a => a.cell.asCounter)

/-- The raw read (*refctr).strong; reading a freed or non-counter cell is
undefined behavior in the source and yields 0 here. -/
def St.strongAt (s : St T) (p : Nat) : Nat :=
  match s.counterAt p with
  | some c => c.strong
  | none => 0

/-- The raw read (*refctr).weak; same undefined-behavior convention. -/
def St.weakAt (s : St T) (p : Nat) : Nat :=
  match s.counterAt p with
  | some c => c.weak
  | none => 0

/-- Applies f to the counter record held by an allocation, if it holds one. -/
def Alloc.mapCounter (f : RefCounter → RefCounter) (a : Alloc T) : Alloc T :=
  match a.cell with
  | Cell.counter c => { a with cell := Cell.counter (f c) }
  | _ => a

/-- The raw write (*refctr) updating the counter record in place. -/
def St.updateCounter (s : St T) (p : Nat) (f : RefCounter → RefCounter) : St T :=
  { s with mem := s.mem.map (fun a => if a.addr = p then a.mapCounter f else a) }

/-- Heap::new monomorphized at RefCounter (the call Heap::new(refctr) in
src/heapref.rs line 38): allocate OVERHEAD bytes, write the counter record. -/
def heapNewCounter (c : RefCounter) (ptr : Nat) (s : St T) : Except RefCounter Heap × St T :=
  match Heap.new_uninit OVERHEAD ptr s with
  | (none, s1) => (Except.error c, s1)
  | (some this, s1) => (Except.ok this.assume_init, s1.write this.memory (Cell.counter c))

/-- HeapRef::new_from_heap, src/heapref.rs lines 33-44: move a counter
record with strong 1 and weak 0 to the heap; on failure return the original
heap box; on success pair the two raw pointers. -/
def HeapRef.new_from_heap (h : Heap) (ptrC : Nat) (s : St T) : Except Heap HeapRef × St T :=
  match heapNewCounter ⟨1, 0⟩ ptrC s with
  | (Except.error _, s1) => (Except.error h, s1)
  | (Except.ok refctr, s1) => (Except.ok ⟨h.into_raw, refctr.into_raw⟩, s1)

/-- HeapRef::new, src/heapref.rs lines 46-55: move the value to the heap,
then build the shared box; if the counter allocation fails, take the value
back out of the heap box and return it. The inner none of the error arm is
the unreachable undefined-behavior read of into_inner. -/
def HeapRef.new (sz : Nat) (v : T) (ptrV ptrC : Nat) (s : St T) : Except T HeapRef × St T :=
  match Heap.new sz v ptrV s with
  | (Except.error v1, s1) => (Except.error v1, s1)
  | (Except.ok hv, s1) =>
    match HeapRef.new_from_heap hv ptrC s1 with
    | (Except.ok this, s2) => (Except.ok this, s2)
    | (Except.error hv1, s2) =>
      match Heap.into_inner sz hv1 s2 with
      | (some v1, s3) => (Except.error v1, s3)
      | (none, s3) => (Except.error v, s3)

/-- HeapRef::inner, src/heapref.rs lines 58-61: none models the expect
abort on a null value pointer. -/
def HeapRef.inner (hr : HeapRef) (s : St T) : Option T :=
  if hr.value = 0 then none else s.readValue hr.value

/-- HeapRef::strong, src/heapref.rs lines 64-66. -/
def HeapRef.strong (hr : HeapRef) (s : St T) : Nat :=
  s.strongAt hr.refctr

/-- HeapRef::weak, src/heapref.rs lines 68-70. -/
def HeapRef.weak (hr : HeapRef) (s : St T) : Nat :=
  s.weakAt hr.refctr

/-- HeapRef::downgrade, src/heapref.rs lines 73-76: increment weak and
return the weak handle with the same pointer pair. -/
def HeapRef.downgrade (hr : HeapRef) (s : St T) : HeapRefWeak × St T :=
  (⟨hr.value, hr.refctr⟩, s.updateCounter hr.refctr (fun c => { c with weak := c.weak + 1 }))

/-- Clone for HeapRef, src/heapref.rs lines 125-130: increment strong and
return a handle with the same pointer pair. -/
def HeapRef.clone (hr : HeapRef) (s : St T) : HeapRef × St T :=
  (⟨hr.value, hr.refctr⟩, s.updateCounter hr.refctr (fun c => { c with strong := c.strong + 1 }))

/-- HeapRef::try_unwrap_heap, src/heapref.rs lines 79-98: fail with the
unchanged handle if strong is above 1; otherwise take the value back as a
heap box (from_raw asserts the value pointer is not null), zero the strong
count, and free the counter record if there are no weak references left.
The outer none models the from_raw assertion panics. -/
def HeapRef.try_unwrap_heap (hr : HeapRef) (s : St T) :
    Option (Except HeapRef Heap × St T) :=
  if hr.strong s > 1 then some (Except.error hr, s)
  else
    match Heap.from_raw hr.value with
    | none => none
    | some value =>
      let s1 := s.updateCounter hr.refctr (fun c => { c with strong := 0 })
      if s1.weakAt hr.refctr = 0 then
        match Heap.from_raw hr.refctr with
        | none => none
        | some refctr => some (Except.ok value, refctr.drop OVERHEAD s1)
      else some (Except.ok value, s1)

/-- HeapRef::try_unwrap, src/heapref.rs lines 100-103: try_unwrap_heap then
into_inner on the unwrapped box. -/
def HeapRef.try_unwrap (sz : Nat) (hr : HeapRef) (s : St T) :
    Option (Except HeapRef (Option T) × St T) :=
  match HeapRef.try_unwrap_heap hr s with
  | none => none
  | some (Except.error hr1, s1) => some (Except.error hr1, s1)
  | some (Except.ok hv, s1) =>
    match Heap.into_inner sz hv s1 with
    | (v1, s2) => some (Except.ok v1, s2)

/-- Drop for HeapRef, src/heapref.rs lines 131-147: decrement strong; if
strong reads 0, drop the value box; if strong and weak both read 0, drop
the counter box. none models the from_raw assertion panics. -/
def HeapRef.dropOp (sz : Nat) (hr : HeapRef) (s : St T) : Option (St T) :=
  let s1 := s.updateCounter hr.refctr (fun c => { c with strong := c.strong - 1 })
  let step2 : Option (St T) :=
    if s1.strongAt hr.refctr = 0 then
      (Heap.from_raw hr.value).map (fun value => value.drop sz s1)
    else some s1
  step2.bind (fun s2 =>
    if s2.strongAt hr.refctr = 0 && s2.weakAt hr.refctr = 0 then
      (Heap.from_raw hr.refctr).map (fun refctr => refctr.drop OVERHEAD s2)
    else some s2)

/-- HeapRefWeak::strong, src/heapref.rs lines 159-161. -/
def HeapRefWeak.strong (w : HeapRefWeak) (s : St T) : Nat :=
  s.strongAt w.refctr

/-- HeapRefWeak::weak, src/heapref.rs lines 163-165. -/
def HeapRefWeak.weak (w : HeapRefWeak) (s : St T) : Nat :=
  s.weakAt w.refctr

/-- HeapRefWeak::upgrade, src/heapref.rs lines 168-177: none if no strong
reference is left; otherwise increment strong and return a strong handle
with the same pointer pair. -/
def HeapRefWeak.upgrade (w : HeapRefWeak) (s : St T) : Option HeapRef × St T :=
  if w.strong s = 0 then (none, s)
  else (some ⟨w.value, w.refctr⟩,
    s.updateCounter w.refctr (fun c => { c with strong := c.strong + 1 }))

/-- Clone for HeapRefWeak, src/heapref.rs lines 179-184: increment weak. -/
def HeapRefWeak.clone (w : HeapRefWeak) (s : St T) : HeapRefWeak × St T :=
  (⟨w.value, w.refctr⟩, s.updateCounter w.refctr (fun c => { c with weak := c.weak + 1 }))

/-- Drop for HeapRefWeak, src/heapref.rs lines 185-196: decrement weak; if
strong and weak both read 0, drop the counter box. -/
def HeapRefWeak.dropOp (w : HeapRefWeak) (s : St T) : Option (St T) :=
  let s1 := s.updateCounter w.refctr (fun c => { c with weak := c.weak - 1 })
  if s1.strongAt w.refctr = 0 && s1.weakAt w.refctr = 0 then
    (Heap.from_raw w.refctr).map (fun refctr => refctr.drop OVERHEAD s1)
  else some s1

/-!
Array constructors, src/heap.rs lines 117-144. The boxed type is a
fixed-length array of elements E; the machine is instantiated at
T := List (Option E), the partially initialized array the allocation holds
while the write loop runs (none is an uninitialized slot). The stateful
FnMut generator is a function on an explicit generator state G.
-/

/-- The write loop of Heap::new_from_fn, src/heap.rs lines 135-139: for
each remaining slot, call the generator once and write the produced value
into slot nth of the array, in index order. -/
def writeLoop (gen : G → E × G) : Nat → Nat → G → List (Option E) → List (Option E) × G
  | 0, _, g, arr => (arr, g)
  | Nat.succ rem, nth, g, arr =>
    let p := gen g
    writeLoop gen rem (nth + 1) p.2 (arr.set nth (some p.1))

/-- Heap::new_from_fn, src/heap.rs lines 126-143: one allocation sized for
the whole array (len times the element size), then the write loop over
slots 0..len, then assume_init. Returns the handle, the state, and the
final generator state. -/
def Heap.new_from_fn (len szE : Nat) (gen : G → E × G) (g0 : G) (ptr : Nat)
    (s : St (List (Option E))) : Option Heap × St (List (Option E)) × G :=
  match Heap.new_uninit (len * szE) ptr s with
  | (none, s1) => (none, s1, g0)
  | (some this, s1) =>
    let p := writeLoop gen len 0 g0 (List.replicate len (Option.none))
    (some this.assume_init, s1.write this.memory (Cell.value p.1), p.2)

/-- Heap::new_default, src/heap.rs lines 119-124: new_from_fn with the
stateless generator T::default. -/
def Heap.new_default (len szE : Nat) (d : E) (ptr : Nat)
    (s : St (List (Option E))) : Option Heap × St (List (Option E)) × Unit :=
  Heap.new_from_fn len szE (fun _ => (d, ())) () ptr s

/-- The generator state after n calls. -/
def genIter (gen : G → E × G) : Nat → G → G
  | 0, g => g
  | Nat.succ n, g => genIter gen n (gen g).2

/-- The n-th value produced by the generator (counting from 0). -/
def genNth (gen : G → E × G) (n : Nat) (g : G) : E :=
  (gen (genIter gen n g)).1

/-!
The shared-family state machine, for the temporal and invariant claims.
One family is all HeapRef and HeapRefWeak handles sharing one pointer pair
(pv, pc). A family configuration records how many strong and weak handles
are live, whether the value allocation is still owned by the family (false
once try_unwrap has transferred it out), and the machine state. Each step
applies one source operation to some live handle.
-/

/-- A configuration of one shared family. -/
structure Fam (T : Type) where
  strongH : Nat
  weakH : Nat
  owned : Bool
  st : St T
deriving DecidableEq

/-- One operation of the shared/weak state machine applied to a family:
every constructor requires a live handle of the right kind and applies the
corresponding source operation to the machine state. -/
inductive FamStep (sz pv pc : Nat) : Fam T → Fam T → Prop
  | clone (f : Fam T) (h : 1 ≤ f.strongH) :
      FamStep sz pv pc f
        { f with strongH := f.strongH + 1, st := (HeapRef.clone ⟨pv, pc⟩ f.st).2 }
  | downgrade (f : Fam T) (h : 1 ≤ f.strongH) :
      FamStep sz pv pc f
        { f with weakH := f.weakH + 1, st := (HeapRef.downgrade ⟨pv, pc⟩ f.st).2 }
  | weakClone (f : Fam T) (h : 1 ≤ f.weakH) :
      FamStep sz pv pc f
        { f with weakH := f.weakH + 1, st := (HeapRefWeak.clone ⟨pv, pc⟩ f.st).2 }
  | dropStrong (f : Fam T) (s1 : St T) (h : 1 ≤ f.strongH)
      (hd : HeapRef.dropOp sz ⟨pv, pc⟩ f.st = some s1) :
      FamStep sz pv pc f { f with strongH := f.strongH - 1, st := s1 }
  | dropWeak (f : Fam T) (s1 : St T) (h : 1 ≤ f.weakH)
      (hd : HeapRefWeak.dropOp ⟨pv, pc⟩ f.st = some s1) :
      FamStep sz pv pc f { f with weakH := f.weakH - 1, st := s1 }
  | upgradeNone (f : Fam T) (h : 1 ≤ f.weakH)
      (hu : (HeapRefWeak.upgrade ⟨pv, pc⟩ f.st).1 = none) :
      FamStep sz pv pc f { f with st := (HeapRefWeak.upgrade ⟨pv, pc⟩ f.st).2 }
  | upgradeSome (f : Fam T) (hr : HeapRef) (h : 1 ≤ f.weakH)
      (hu : (HeapRefWeak.upgrade ⟨pv, pc⟩ f.st).1 = some hr) :
      FamStep sz pv pc f
        { f with strongH := f.strongH + 1, st := (HeapRefWeak.upgrade ⟨pv, pc⟩ f.st).2 }
  | unwrapOk (f : Fam T) (hv : Heap) (s1 : St T) (h : 1 ≤ f.strongH)
      (hu : HeapRef.try_unwrap_heap ⟨pv, pc⟩ f.st = some (Except.ok hv, s1)) :
      FamStep sz pv pc f
        { strongH := f.strongH - 1, weakH := f.weakH, owned := false, st := s1 }
  | unwrapErr (f : Fam T) (hr : HeapRef) (s1 : St T) (h : 1 ≤ f.strongH)
      (hu : HeapRef.try_unwrap_heap ⟨pv, pc⟩ f.st = some (Except.error hr, s1)) :
      FamStep sz pv pc f { f with st := s1 }

/-- The family invariant: the two pointers are non-null and distinct, the
allocator state is well formed, the counter record is live exactly while
some handle is, the live record holds exactly the handle counts, the strong
count is positive exactly while the value allocation is alive and owned by
the family, and once the value has escaped via try_unwrap no strong handle
remains. -/
def FamInv (pv pc : Nat) (f : Fam T) : Prop :=
  pv ≠ 0 ∧ pc ≠ 0 ∧ pv ≠ pc ∧ f.st.addrNodup ∧
  (f.st.isAlive pc = true ↔ 0 < f.strongH + f.weakH) ∧
  (f.st.isAlive pc = true → f.st.counterAt pc = some ⟨f.strongH, f.weakH⟩) ∧
  (0 < f.st.strongAt pc ↔ (f.owned = true ∧ f.st.isAlive pv = true)) ∧
  (f.owned = false → f.strongH = 0)

instance (pv pc : Nat) (f : Fam T) [DecidableEq T] : Decidable (FamInv pv pc f) := by
  unfold FamInv
  infer_instance

/-! Helper lemmas about the state operations. -/

theorem Alloc.addr_mapCounter (f : RefCounter → RefCounter) (a : Alloc T) :
    (a.mapCounter f).addr = a.addr := by
  obtain ⟨addr, size, cell⟩ := a
  cases cell <;> rfl

theorem Alloc.asCounter_mapCounter (f : RefCounter → RefCounter) (a : Alloc T) :
    (a.mapCounter f).cell.asCounter = (a.cell.asCounter).map f := by
  obtain ⟨addr, size, cell⟩ := a
  cases cell <;> rfl

theorem Alloc.asValue_mapCounter (f : RefCounter → RefCounter) (a : Alloc T) :
    (a.mapCounter f).cell.asValue = a.cell.asValue := by
  obtain ⟨addr, size, cell⟩ := a
  cases cell <;> rfl

theorem find?_map_update (p q : Nat) (g : Alloc T → Alloc T)
    (hg : ∀ a, (g a).addr = a.addr) (l : List (Alloc T)) :
    (l.map (fun a => if a.addr = p then g a else a)).find? (fun a => a.addr = q) =
      (l.find? (fun a => a.addr = q)).map (fun a => if a.addr = p then g a else a) := by
  induction l with
  | nil => rfl
  | cons a tl ih =>
    have haddr : (if a.addr = p then g a else a).addr = a.addr := by
      split <;> simp [hg]
    by_cases hq : a.addr = q
    · rw [List.map_cons, List.find?_cons_of_pos _ (by simp only [haddr]; exact decide_eq_true hq),
        List.find?_cons_of_pos _ (by simp [hq])]
      rfl
    · rw [List.map_cons, List.find?_cons_of_neg _ (by simp only [haddr]; simp [hq]),
        List.find?_cons_of_neg _ (by simp [hq]), ih]

theorem find?_eraseP_ne (p q : Nat) (hpq : q ≠ p) (l : List (Alloc T)) :
    (l.eraseP (fun a => a.addr = p)).find? (fun a => a.addr = q) =
      l.find? (fun a => a.addr = q) := by
  induction l with
  | nil => rfl
  | cons a tl ih =>
    by_cases hp : a.addr = p
    · have hq : ¬a.addr = q := fun h => hpq (h ▸ hp)
      rw [List.eraseP_cons_of_pos (by simp [hp]),
        List.find?_cons_of_neg _ (by simp [hq])]
    · by_cases hq : a.addr = q
      · rw [List.eraseP_cons_of_neg (by simp [hp]),
          List.find?_cons_of_pos _ (by simp [hq]),
          List.find?_cons_of_pos _ (by simp [hq])]
      · rw [List.eraseP_cons_of_neg (by simp [hp]),
          List.find?_cons_of_neg _ (by simp [hq]),
          List.find?_cons_of_neg _ (by simp [hq]), ih]

theorem find?_eq_none_of_not_mem_addrs (p : Nat) (l : List (Alloc T))
    (h : p ∉ l.map (fun a => a.addr)) :
    l.find? (fun a => a.addr = p) = none := by
  rw [List.find?_eq_none]
  intro a ha
  simp only [decide_eq_true_eq]
  intro hap
  exact h (List.mem_map.mpr ⟨a, ha, hap⟩)

theorem find?_eraseP_self (p : Nat) (l : List (Alloc T))
    (h : (l.map (fun a => a.addr)).Nodup) :
    (l.eraseP (fun a => a.addr = p)).find? (fun a => a.addr = p) = none := by
  induction l with
  | nil => rfl
  | cons a tl ih =>
    simp only [List.map_cons, List.nodup_cons] at h
    by_cases hp : a.addr = p
    · rw [List.eraseP_cons_of_pos (by simp [hp])]
      exact find?_eq_none_of_not_mem_addrs p tl (hp ▸ h.1)
    · rw [List.eraseP_cons_of_neg (by simp [hp]),
        List.find?_cons_of_neg _ (by simp [hp])]
      exact ih h.2

theorem St.traced_updateCounter (s : St T) (p : Nat) (f : RefCounter → RefCounter) :
    (s.updateCounter p f).traced = s.traced := rfl

theorem St.traced_write (s : St T) (p : Nat) (c : Cell T) :
    (s.write p c).traced = s.traced := rfl

theorem St.traced_free (s : St T) (p : Nat) :
    (s.free p).traced = s.traced := rfl

theorem St.lookup_updateCounter (s : St T) (p q : Nat) (f : RefCounter → RefCounter) :
    (s.updateCounter p f).lookup q =
      (s.lookup q).map (fun a => if a.addr = p then a.mapCounter f else a) := by
  unfold St.lookup St.updateCounter
  exact find?_map_update p q (Alloc.mapCounter f) (Alloc.addr_mapCounter f) s.mem

theorem St.lookup_updateCounter_ne (s : St T) (p q : Nat) (f : RefCounter → RefCounter)
    (hpq : q ≠ p) : (s.updateCounter p f).lookup q = s.lookup q := by
  rw [St.lookup_updateCounter]
  cases hfind : s.lookup q with
  | none => rfl
  | some a =>
    have := List.find?_some hfind
    simp only [decide_eq_true_eq] at this
    simp [this, hpq]

theorem St.lookup_updateCounter_self (s : St T) (p : Nat) (f : RefCounter → RefCounter)
    (a : Alloc T) (ha : s.lookup p = some a) :
    (s.updateCounter p f).lookup p = some (a.mapCounter f) := by
  rw [St.lookup_updateCounter, ha]
  have := List.find?_some ha
  simp only [decide_eq_true_eq] at this
  simp [this]

theorem St.counterAt_updateCounter_self (s : St T) (p : Nat) (f : RefCounter → RefCounter)
    (c : RefCounter) (hc : s.counterAt p = some c) :
    (s.updateCounter p f).counterAt p = some (f c) := by
  unfold St.counterAt at hc ⊢
  cases ha : s.lookup p with
  | none => simp [ha] at hc
  | some a =>
    rw [ha] at hc
    simp only [Option.some_bind] at hc
    rw [St.lookup_updateCounter_self s p f a ha]
    simp only [Option.some_bind, Alloc.asCounter_mapCounter, hc]
    rfl

theorem St.counterAt_updateCounter_ne (s : St T) (p q : Nat) (f : RefCounter → RefCounter)
    (hpq : q ≠ p) : (s.updateCounter p f).counterAt q = s.counterAt q := by
  unfold St.counterAt
  rw [St.lookup_updateCounter_ne s p q f hpq]

theorem St.readValue_updateCounter (s : St T) (p q : Nat) (f : RefCounter → RefCounter) :
    (s.updateCounter p f).readValue q = s.readValue q := by
  unfold St.readValue
  rw [St.lookup_updateCounter]
  cases hfind : s.lookup q with
  | none => rfl
  | some a =>
    by_cases hap : a.addr = p
    · simp [hap, Alloc.asValue_mapCounter]
    · simp [hap]

theorem St.isAlive_updateCounter (s : St T) (p q : Nat) (f : RefCounter → RefCounter) :
    (s.updateCounter p f).isAlive q = s.isAlive q := by
  unfold St.isAlive
  rw [St.lookup_updateCounter]
  cases hfind : s.lookup q <;> rfl

theorem St.lookup_free_ne (s : St T) (p q : Nat) (hpq : q ≠ p) :
    (s.free p).lookup q = s.lookup q := by
  unfold St.lookup St.free
  exact find?_eraseP_ne p q hpq s.mem

theorem St.lookup_free_self (s : St T) (p : Nat) (h : s.addrNodup) :
    (s.free p).lookup p = none := by
  unfold St.lookup St.free
  exact find?_eraseP_self p s.mem h

theorem St.isAlive_free_ne (s : St T) (p q : Nat) (hpq : q ≠ p) :
    (s.free p).isAlive q = s.isAlive q := by
  unfold St.isAlive
  rw [St.lookup_free_ne s p q hpq]

theorem St.isAlive_free_self (s : St T) (p : Nat) (h : s.addrNodup) :
    (s.free p).isAlive p = false := by
  unfold St.isAlive
  rw [St.lookup_free_self s p h]
  rfl

theorem St.addrs_updateCounter (s : St T) (p : Nat) (f : RefCounter → RefCounter) :
    (s.updateCounter p f).addrs = s.addrs := by
  unfold St.addrs St.updateCounter
  simp only [List.map_map]
  apply List.map_congr_left
  intro a _
  simp only [Function.comp_apply]
  split
  · exact Alloc.addr_mapCounter f a
  · rfl

theorem St.addrNodup_updateCounter (s : St T) (p : Nat) (f : RefCounter → RefCounter)
    (h : s.addrNodup) : (s.updateCounter p f).addrNodup := by
  unfold St.addrNodup
  rw [St.addrs_updateCounter]
  exact h

theorem St.addrNodup_free (s : St T) (p : Nat) (h : s.addrNodup) :
    (s.free p).addrNodup := by
  unfold St.addrNodup St.addrs at h ⊢
  exact ((List.eraseP_sublist s.mem).map (fun a => a.addr)).nodup h

theorem St.counterAt_free_ne (s : St T) (p q : Nat) (hpq : q ≠ p) :
    (s.free p).counterAt q = s.counterAt q := by
  unfold St.counterAt
  rw [St.lookup_free_ne s p q hpq]

theorem St.strongAt_of_counterAt (s : St T) (p : Nat) (c : RefCounter)
    (h : s.counterAt p = some c) : s.strongAt p = c.strong := by
  unfold St.strongAt
  rw [h]

theorem St.weakAt_of_counterAt (s : St T) (p : Nat) (c : RefCounter)
    (h : s.counterAt p = some c) : s.weakAt p = c.weak := by
  unfold St.weakAt
  rw [h]

theorem St.counterAt_eq_none_of_not_alive (s : St T) (p : Nat)
    (h : s.isAlive p = false) : s.counterAt p = none := by
  unfold St.counterAt
  unfold St.isAlive at h
  cases ha : s.lookup p with
  | none => rfl
  | some a => rw [ha] at h; simp at h

theorem St.strongAt_eq_zero_of_not_alive (s : St T) (p : Nat)
    (h : s.isAlive p = false) : s.strongAt p = 0 := by
  unfold St.strongAt
  rw [St.counterAt_eq_none_of_not_alive s p h]

theorem St.lookup_eq_none_of_not_alive (s : St T) (p : Nat)
    (h : s.isAlive p = false) : s.lookup p = none := by
  unfold St.isAlive at h
  cases ho : s.lookup p with
  | none => rfl
  | some a => rw [ho] at h; simp at h

theorem St.addr_ne_of_not_alive (s : St T) (p : Nat) (h : s.isAlive p = false) :
    ∀ x ∈ s.mem, x.addr ≠ p := fun x hx => by
  simpa using List.find?_eq_none.mp (St.lookup_eq_none_of_not_alive s p h) x hx

theorem map_write_fresh (p : Nat) (c : Cell T) (l : List (Alloc T))
    (h : ∀ x ∈ l, x.addr ≠ p) :
    l.map (fun a => if a.addr = p then { a with cell := c } else a) = l := by
  induction l with
  | nil => rfl
  | cons a tl ih =>
    rw [List.map_cons, if_neg (h a (List.mem_cons_self a tl)),
      ih (fun x hx => h x (List.mem_cons_of_mem a hx))]

theorem heap_new_uninit_success (sz ptr : Nat) (s : St T) (hptr : ptr ≠ 0) :
    Heap.new_uninit sz ptr s =
      (some ⟨ptr⟩, { mem := ⟨ptr, sz, Cell.uninit⟩ :: s.mem, traced := s.traced + sz }) := by
  unfold Heap.new_uninit
  rw [if_neg hptr]
  rfl

theorem heap_new_success (sz : Nat) (v : T) (ptr : Nat) (s : St T)
    (hptr : ptr ≠ 0) (hfresh : s.isAlive ptr = false) :
    Heap.new sz v ptr s =
      (Except.ok ⟨ptr⟩, { mem := ⟨ptr, sz, Cell.value v⟩ :: s.mem, traced := s.traced + sz }) := by
  unfold Heap.new
  rw [heap_new_uninit_success sz ptr s hptr]
  unfold Heap.assume_init St.write
  simp only []
  congr 1
  rw [List.map_cons, if_pos rfl,
    map_write_fresh ptr (Cell.value v) s.mem (St.addr_ne_of_not_alive s ptr hfresh)]

theorem heap_new_counter_success (c : RefCounter) (ptr : Nat) (s : St T)
    (hptr : ptr ≠ 0) (hfresh : s.isAlive ptr = false) :
    heapNewCounter c ptr s =
      (Except.ok ⟨ptr⟩,
        { mem := ⟨ptr, OVERHEAD, Cell.counter c⟩ :: s.mem, traced := s.traced + OVERHEAD }) := by
  unfold heapNewCounter
  rw [heap_new_uninit_success OVERHEAD ptr s hptr]
  unfold Heap.assume_init St.write
  simp only []
  congr 1
  rw [List.map_cons, if_pos rfl,
    map_write_fresh ptr (Cell.counter c) s.mem (St.addr_ne_of_not_alive s ptr hfresh)]

theorem heap_into_inner_head (sz szA : Nat) (p : Nat) (v : T) (rest : List (Alloc T)) (t : Nat) :
    Heap.into_inner sz ⟨p⟩ { mem := ⟨p, szA, Cell.value v⟩ :: rest, traced := t } =
      (some v, { mem := rest, traced := t - sz }) := by
  unfold Heap.into_inner St.readValue St.lookup St.free St.decTrace
  simp only []
  rw [List.find?_cons_of_pos _ (by simp), List.eraseP_cons_of_pos (by simp)]
  rfl

theorem St.lookup_decTrace (s : St T) (n p : Nat) : (s.decTrace n).lookup p = s.lookup p := rfl

theorem St.isAlive_decTrace (s : St T) (n p : Nat) : (s.decTrace n).isAlive p = s.isAlive p := rfl

theorem St.counterAt_decTrace (s : St T) (n p : Nat) :
    (s.decTrace n).counterAt p = s.counterAt p := rfl

theorem St.strongAt_decTrace (s : St T) (n p : Nat) :
    (s.decTrace n).strongAt p = s.strongAt p := rfl

theorem St.weakAt_decTrace (s : St T) (n p : Nat) : (s.decTrace n).weakAt p = s.weakAt p := rfl

theorem St.addrNodup_decTrace (s : St T) (n : Nat) (h : s.addrNodup) :
    (s.decTrace n).addrNodup := h

theorem St.isAlive_of_counterAt_some (s : St T) (p : Nat) (c : RefCounter)
    (h : s.counterAt p = some c) : s.isAlive p = true := by
  unfold St.counterAt at h
  unfold St.isAlive
  cases ho : s.lookup p with
  | none => rw [ho] at h; simp at h
  | some a => rfl

theorem St.strongAt_updateCounter_ne (s : St T) (p q : Nat) (f : RefCounter → RefCounter)
    (hpq : q ≠ p) : (s.updateCounter p f).strongAt q = s.strongAt q := by
  unfold St.strongAt
  rw [St.counterAt_updateCounter_ne s p q f hpq]

theorem St.weakAt_free_ne (s : St T) (p q : Nat) (hpq : q ≠ p) :
    (s.free p).weakAt q = s.weakAt q := by
  unfold St.weakAt
  rw [St.counterAt_free_ne s p q hpq]

theorem St.strongAt_free_ne (s : St T) (p q : Nat) (hpq : q ≠ p) :
    (s.free p).strongAt q = s.strongAt q := by
  unfold St.strongAt
  rw [St.counterAt_free_ne s p q hpq]

theorem HeapRef.clone_st (hr : HeapRef) (s : St T) :
    (HeapRef.clone hr s).2 = s.updateCounter hr.refctr (fun c => { c with strong := c.strong + 1 }) := rfl

theorem HeapRef.downgrade_st (hr : HeapRef) (s : St T) :
    (HeapRef.downgrade hr s).2 = s.updateCounter hr.refctr (fun c => { c with weak := c.weak + 1 }) := rfl

theorem HeapRefWeak.cloneWeak_st (w : HeapRefWeak) (s : St T) :
    (HeapRefWeak.clone w s).2 = s.updateCounter w.refctr (fun c => { c with weak := c.weak + 1 }) := rfl

/-! The claim theorems. -/

/-- C1: for every value v, if Heap::new(v) succeeds (the allocator returned
a fresh non-null pointer), then into_inner on the resulting box returns the
value v, and the heap and tracer state is restored exactly to its
pre-allocation value. -/
theorem heap_new_into_inner_roundtrip (sz : Nat) (v : T) (ptr : Nat) (s : St T)
    (hptr : ptr ≠ 0) (hfresh : s.isAlive ptr = false) :
    (Heap.new sz v ptr s).1 = Except.ok ⟨ptr⟩ ∧
      Heap.into_inner sz ⟨ptr⟩ (Heap.new sz v ptr s).2 = (some v, s) := by
  rw [heap_new_success sz v ptr s hptr hfresh]
  refine ⟨rfl, ?_⟩
  rw [heap_into_inner_head sz sz ptr v s.mem (s.traced + sz), Nat.add_sub_cancel]

/-- Witness for C1: boxing the value 42 in four bytes at address 1 in the
empty state, then unboxing, returns 42 and the empty state. -/
theorem heap_new_into_inner_roundtrip_witness :
    (Heap.new 4 (42 : Nat) 1 { mem := [], traced := 0 }).1 = Except.ok ⟨1⟩ ∧
      Heap.into_inner 4 ⟨1⟩ (Heap.new 4 (42 : Nat) 1 { mem := [], traced := 0 }).2 =
        (some 42, { mem := [], traced := 0 }) :=
  heap_new_into_inner_roundtrip 4 42 1 { mem := [], traced := 0 } (by decide) (by decide)

/-- C3: try_unwrap_heap (and try_unwrap) on a handle whose strong count is
above 1 fails, returns the original handle unchanged (same value pointer
and record pointer), and leaves the machine state — both counts and all
allocations — untouched. -/
theorem try_unwrap_shared_fails_unchanged (sz : Nat) (hr : HeapRef) (s : St T)
    (h : 1 < hr.strong s) :
    HeapRef.try_unwrap_heap hr s = some (Except.error hr, s) ∧
      HeapRef.try_unwrap sz hr s = some (Except.error hr, s) := by
  have h1 : HeapRef.try_unwrap_heap hr s = some (Except.error hr, s) := by
    unfold HeapRef.try_unwrap_heap
    rw [if_pos h]
  refine ⟨h1, ?_⟩
  unfold HeapRef.try_unwrap
  rw [h1]

/-- Witness for C3: a family with strong count 2 rejects try_unwrap and
returns the handle and state unchanged. -/
theorem try_unwrap_shared_fails_unchanged_witness :
    HeapRef.try_unwrap_heap ⟨1, 2⟩
        ({ mem := [⟨1, 4, Cell.value 7⟩, ⟨2, 8, Cell.counter ⟨2, 0⟩⟩], traced := 12 } : St Nat) =
      some (Except.error ⟨1, 2⟩,
        { mem := [⟨1, 4, Cell.value 7⟩, ⟨2, 8, Cell.counter ⟨2, 0⟩⟩], traced := 12 }) ∧
    HeapRef.try_unwrap 4 ⟨1, 2⟩
        ({ mem := [⟨1, 4, Cell.value 7⟩, ⟨2, 8, Cell.counter ⟨2, 0⟩⟩], traced := 12 } : St Nat) =
      some (Except.error ⟨1, 2⟩,
        { mem := [⟨1, 4, Cell.value 7⟩, ⟨2, 8, Cell.counter ⟨2, 0⟩⟩], traced := 12 }) :=
  try_unwrap_shared_fails_unchanged 4 ⟨1, 2⟩
    { mem := [⟨1, 4, Cell.value 7⟩, ⟨2, 8, Cell.counter ⟨2, 0⟩⟩], traced := 12 } (by decide)

/-- C4: upgrade on a weak handle returns none and leaves the whole state
(both counts included) unchanged when the strong count is 0; when the
strong count is positive it increments strong by exactly 1, leaves weak
unchanged, leaves every other allocation unchanged, and returns a strong
handle with the same value and record pointers. -/
theorem weak_upgrade_correct (w : HeapRefWeak) (s : St T) (c : RefCounter)
    (hc : s.counterAt w.refctr = some c) :
    (c.strong = 0 → HeapRefWeak.upgrade w s = (none, s)) ∧
    (0 < c.strong →
      (HeapRefWeak.upgrade w s).1 = some ⟨w.value, w.refctr⟩ ∧
      (HeapRefWeak.upgrade w s).2.counterAt w.refctr = some ⟨c.strong + 1, c.weak⟩ ∧
      ∀ q, q ≠ w.refctr → (HeapRefWeak.upgrade w s).2.lookup q = s.lookup q) := by
  have hstrong : w.strong s = c.strong := by
    unfold HeapRefWeak.strong
    exact St.strongAt_of_counterAt s w.refctr c hc
  constructor
  · intro h0
    unfold HeapRefWeak.upgrade
    rw [hstrong, if_pos h0]
  · intro hpos
    have hne : ¬w.strong s = 0 := by
      rw [hstrong]
      omega
    unfold HeapRefWeak.upgrade
    rw [if_neg hne]
    refine ⟨rfl, ?_, ?_⟩
    · simpa using St.counterAt_updateCounter_self s w.refctr
        (fun c => { c with strong := c.strong + 1 }) c hc
    · intro q hq
      exact St.lookup_updateCounter_ne s w.refctr q _ hq

/-- Witness for C4 on a live record with strong 1 and weak 1: upgrade
returns a strong handle and the counter becomes strong 2, weak 1. -/
theorem weak_upgrade_correct_witness :
    (HeapRefWeak.upgrade ⟨1, 2⟩
        ({ mem := [⟨1, 4, Cell.value 7⟩, ⟨2, 8, Cell.counter ⟨1, 1⟩⟩], traced := 12 } : St Nat)).1 =
      some ⟨1, 2⟩ ∧
    (HeapRefWeak.upgrade ⟨1, 2⟩
        ({ mem := [⟨1, 4, Cell.value 7⟩, ⟨2, 8, Cell.counter ⟨1, 1⟩⟩], traced := 12 } : St Nat)).2.counterAt 2 =
      some ⟨2, 1⟩ :=
  have h := weak_upgrade_correct ⟨1, 2⟩
    ({ mem := [⟨1, 4, Cell.value 7⟩, ⟨2, 8, Cell.counter ⟨1, 1⟩⟩], traced := 12 } : St Nat)
    ⟨1, 1⟩ (by decide)
  ⟨(h.2 (by decide)).1, (h.2 (by decide)).2.1⟩

/-- C7: on allocation failure (the allocator returns the null pointer) the
typed constructors Heap::new, HeapRef::new and HeapRef::new_from_heap
return the original value or box, and leave the whole observable state,
tracing counter included, at its pre-call value; Heap::new_uninit returns
none. The HeapRef::new case covers both failure points: the value
allocation failing, and the counter allocation failing after a successful
value allocation. -/
theorem alloc_failure_returns_original (sz : Nat) (v : T) (hv : Heap) (ptrV : Nat) (s : St T)
    (hptrV : ptrV ≠ 0) (hfresh : s.isAlive ptrV = false) :
    Heap.new_uninit sz 0 s = (none, s) ∧
    Heap.new sz v 0 s = (Except.error v, s) ∧
    HeapRef.new_from_heap hv 0 s = (Except.error hv, s) ∧
    HeapRef.new sz v 0 0 s = (Except.error v, s) ∧
    HeapRef.new sz v ptrV 0 s = (Except.error v, s) := by
  refine ⟨rfl, rfl, rfl, rfl, ?_⟩
  unfold HeapRef.new
  rw [heap_new_success sz v ptrV s hptrV hfresh]
  simp only [HeapRef.new_from_heap, heapNewCounter, Heap.new_uninit, if_true]
  rw [heap_into_inner_head sz sz ptrV v s.mem (s.traced + sz), Nat.add_sub_cancel]

/-- Witness for C7: with value address 1 and a failing counter allocation,
HeapRef::new hands back 42 and the empty state. -/
theorem alloc_failure_returns_original_witness :
    Heap.new_uninit 4 0 ({ mem := [], traced := 0 } : St Nat) = (none, { mem := [], traced := 0 }) ∧
    Heap.new 4 (42 : Nat) 0 { mem := [], traced := 0 } = (Except.error 42, { mem := [], traced := 0 }) ∧
    HeapRef.new_from_heap ⟨1⟩ 0 ({ mem := [], traced := 0 } : St Nat) =
      (Except.error ⟨1⟩, { mem := [], traced := 0 }) ∧
    HeapRef.new 4 (42 : Nat) 0 0 { mem := [], traced := 0 } =
      (Except.error 42, { mem := [], traced := 0 }) ∧
    HeapRef.new 4 (42 : Nat) 1 0 { mem := [], traced := 0 } =
      (Except.error 42, { mem := [], traced := 0 }) :=
  alloc_failure_returns_original 4 42 ⟨1⟩ 1 { mem := [], traced := 0 } (by decide) (by decide)

/-- C8: a successful box allocation increments the tracer by exactly sz,
and each deallocation path — into_inner or drop — brings it back to the
pre-allocation value; into_raw is a pure projection of the pointer (no
state argument at all, hence no deallocation and no tracer change), and the
decrement is deferred to a later from_raw plus drop, which restores the
pre-allocation tracer value. -/
theorem tracer_delta_matches_size (sz : Nat) (v : T) (ptr : Nat) (s : St T)
    (hptr : ptr ≠ 0) (hfresh : s.isAlive ptr = false) :
    (Heap.new sz v ptr s).2.traced = s.traced + sz ∧
    (Heap.into_inner sz ⟨ptr⟩ (Heap.new sz v ptr s).2).2.traced = s.traced ∧
    (Heap.drop sz ⟨ptr⟩ (Heap.new sz v ptr s).2).traced = s.traced ∧
    Heap.into_raw ⟨ptr⟩ = ptr ∧
    Heap.from_raw (Heap.into_raw ⟨ptr⟩) = some ⟨ptr⟩ ∧
    (Heap.drop sz ((Heap.from_raw (Heap.into_raw ⟨ptr⟩)).getD ⟨0⟩) (Heap.new sz v ptr s).2).traced =
      s.traced := by
  rw [heap_new_success sz v ptr s hptr hfresh]
  refine ⟨rfl, ?_, ?_, rfl, ?_, ?_⟩
  · rw [heap_into_inner_head sz sz ptr v s.mem (s.traced + sz), Nat.add_sub_cancel]
  · show s.traced + sz - sz = s.traced
    exact Nat.add_sub_cancel s.traced sz
  · unfold Heap.from_raw Heap.into_raw
    rw [if_neg hptr]
  · unfold Heap.from_raw Heap.into_raw
    rw [if_neg hptr]
    show s.traced + sz - sz = s.traced
    exact Nat.add_sub_cancel s.traced sz

/-- Witness for C8 at sz 4, value 42, address 1, empty state. -/
theorem tracer_delta_matches_size_witness :
    (Heap.new 4 (42 : Nat) 1 ({ mem := [], traced := 0 } : St Nat)).2.traced = 0 + 4 ∧
    (Heap.into_inner 4 ⟨1⟩ (Heap.new 4 (42 : Nat) 1 ({ mem := [], traced := 0 } : St Nat)).2).2.traced = 0 ∧
    (Heap.drop 4 ⟨1⟩ (Heap.new 4 (42 : Nat) 1 ({ mem := [], traced := 0 } : St Nat)).2).traced = 0 ∧
    Heap.into_raw ⟨1⟩ = 1 ∧
    Heap.from_raw (Heap.into_raw ⟨1⟩) = some ⟨1⟩ ∧
    (Heap.drop 4 ((Heap.from_raw (Heap.into_raw ⟨1⟩)).getD ⟨0⟩)
        (Heap.new 4 (42 : Nat) 1 ({ mem := [], traced := 0 } : St Nat)).2).traced = 0 :=
  tracer_delta_matches_size 4 42 1 { mem := [], traced := 0 } (by decide) (by decide)

/-- C10: Heap::from_raw on the null pointer fails its assertion (modelled
as none) instead of constructing a handle; every Heap produced by the
public constructors from_raw, new_uninit and new carries a non-null
internal pointer; and for any box with a non-null pointer, inner never
takes its abort branch. -/
theorem from_raw_null_checked (sz ptr : Nat) (v : T) (s : St T) :
    Heap.from_raw 0 = none ∧
    (∀ p hh, Heap.from_raw p = some hh → hh.memory ≠ 0) ∧
    (∀ hh s1, Heap.new_uninit sz ptr s = (some hh, s1) → hh.memory ≠ 0) ∧
    (∀ hh s1, Heap.new sz v ptr s = (Except.ok hh, s1) → hh.memory ≠ 0) ∧
    (∀ hh : Heap, hh.memory ≠ 0 → ∀ s1 : St T, (Heap.inner hh s1).isSome = true) := by
  refine ⟨rfl, ?_, ?_, ?_, ?_⟩
  · intro p hh hp
    unfold Heap.from_raw at hp
    by_cases h0 : p = 0
    · rw [if_pos h0] at hp
      cases hp
    · rw [if_neg h0] at hp
      cases hp
      exact h0
  · intro hh s1 hu
    unfold Heap.new_uninit at hu
    by_cases h0 : ptr = 0
    · rw [if_pos h0] at hu
      cases hu
    · rw [if_neg h0] at hu
      cases hu
      exact h0
  · intro hh s1 hn
    unfold Heap.new at hn
    by_cases h0 : ptr = 0
    · unfold Heap.new_uninit at hn
      rw [if_pos h0] at hn
      cases hn
    · unfold Heap.new_uninit at hn
      rw [if_neg h0] at hn
      simp only [] at hn
      cases hn
      exact h0
  · intro hh h0 s1
    unfold Heap.inner
    rw [if_neg h0]
    rfl

/-- Witness for C10: from_raw at address 3 yields a non-null box, a
successful new at address 1 yields a non-null box, and inner on it does not
abort. -/
theorem from_raw_null_checked_witness :
    (3 : Nat) ≠ 0 ∧ (1 : Nat) ≠ 0 ∧
      (Heap.inner ⟨1⟩ ({ mem := [⟨1, 4, Cell.value 42⟩], traced := 4 } : St Nat)).isSome = true :=
  have h := from_raw_null_checked 4 1 (42 : Nat) { mem := [], traced := 0 }
  ⟨h.2.1 3 ⟨3⟩ (by decide),
    h.2.2.2.1 ⟨1⟩ { mem := [⟨1, 4, Cell.value 42⟩], traced := 0 + 4 } (by decide),
    h.2.2.2.2 ⟨1⟩ (by decide) { mem := [⟨1, 4, Cell.value 42⟩], traced := 4 }⟩

/-- C2: try_unwrap_heap on a handle whose strong count is exactly 1 at
call time succeeds: it returns the value as a heap box at the same value
address with its stored allocation untouched, sets the strong count to 0,
and deallocates the counter record exactly when the weak count is 0; with
weak references outstanding the record stays allocated, holding strong 0
and the unchanged weak count. -/
theorem try_unwrap_sole_owner_succeeds (hr : HeapRef) (s : St T) (c : RefCounter)
    (hc : s.counterAt hr.refctr = some c) (hstrong : c.strong = 1)
    (hv : hr.value ≠ 0) (hrc : hr.refctr ≠ 0) (hne : hr.value ≠ hr.refctr)
    (hnodup : s.addrNodup) :
    ∃ s1, HeapRef.try_unwrap_heap hr s = some (Except.ok ⟨hr.value⟩, s1) ∧
      s1.lookup hr.value = s.lookup hr.value ∧
      (c.weak = 0 → s1.isAlive hr.refctr = false) ∧
      (0 < c.weak → s1.counterAt hr.refctr = some ⟨0, c.weak⟩) := by
  have hvr : hr.value ≠ hr.refctr := hne
  have hstrongAt : hr.strong s = 1 := by
    unfold HeapRef.strong
    rw [St.strongAt_of_counterAt s hr.refctr c hc, hstrong]
  have hfr : Heap.from_raw hr.value = some ⟨hr.value⟩ := by
    unfold Heap.from_raw
    rw [if_neg hv]
  have hfrc : Heap.from_raw hr.refctr = some ⟨hr.refctr⟩ := by
    unfold Heap.from_raw
    rw [if_neg hrc]
  have hctr1 : (s.updateCounter hr.refctr (fun c => { c with strong := 0 })).counterAt hr.refctr =
      some ⟨0, c.weak⟩ := by
    simpa using St.counterAt_updateCounter_self s hr.refctr (fun c => { c with strong := 0 }) c hc
  have hweak1 : (s.updateCounter hr.refctr (fun c => { c with strong := 0 })).weakAt hr.refctr =
      c.weak := St.weakAt_of_counterAt _ _ ⟨0, c.weak⟩ hctr1
  unfold HeapRef.try_unwrap_heap
  rw [if_neg (by rw [hstrongAt]; omega)]
  simp only [hfr, hfrc, hweak1]
  by_cases hw : c.weak = 0
  · rw [if_pos hw]
    refine ⟨_, rfl, ?_, ?_, ?_⟩
    · show ((s.updateCounter hr.refctr (fun c => { c with strong := 0 })).free
          hr.refctr).lookup hr.value = s.lookup hr.value
      rw [St.lookup_free_ne _ _ _ hvr, St.lookup_updateCounter_ne _ _ _ _ hvr]
    · intro _
      show ((s.updateCounter hr.refctr (fun c => { c with strong := 0 })).free
          hr.refctr).isAlive hr.refctr = false
      exact St.isAlive_free_self _ hr.refctr (St.addrNodup_updateCounter s hr.refctr _ hnodup)
    · intro hpos
      omega
  · rw [if_neg hw]
    refine ⟨_, rfl, ?_, ?_, ?_⟩
    · exact St.lookup_updateCounter_ne _ _ _ _ hvr
    · intro h0
      exact absurd h0 hw
    · intro _
      exact hctr1

/-- Witness for C2: the sole strong handle of a family with one weak
reference unwraps successfully; the record survives with strong 0, weak 1. -/
theorem try_unwrap_sole_owner_succeeds_witness :
    ∃ s1, HeapRef.try_unwrap_heap ⟨1, 2⟩
        ({ mem := [⟨1, 4, Cell.value 7⟩, ⟨2, 8, Cell.counter ⟨1, 1⟩⟩], traced := 12 } : St Nat) =
      some (Except.ok ⟨1⟩, s1) ∧
      s1.lookup 1 = ({ mem := [⟨1, 4, Cell.value 7⟩, ⟨2, 8, Cell.counter ⟨1, 1⟩⟩], traced := 12 } : St Nat).lookup 1 ∧
      ((1 : Nat) = 0 → s1.isAlive 2 = false) ∧
      ((0 : Nat) < 1 → s1.counterAt 2 = some ⟨0, 1⟩) :=
  try_unwrap_sole_owner_succeeds ⟨1, 2⟩
    { mem := [⟨1, 4, Cell.value 7⟩, ⟨2, 8, Cell.counter ⟨1, 1⟩⟩], traced := 12 }
    ⟨1, 1⟩ (by decide) (by decide) (by decide) (by decide) (by decide) (by decide)

theorem write_cons_fresh (p sz0 : Nat) (c0 cnew : Cell T) (s : St T) (t : Nat)
    (hfresh : s.isAlive p = false) :
    ({ mem := ⟨p, sz0, c0⟩ :: s.mem, traced := t } : St T).write p cnew =
      { mem := ⟨p, sz0, cnew⟩ :: s.mem, traced := t } := by
  unfold St.write
  simp only []
  congr 1
  rw [List.map_cons, if_pos rfl, map_write_fresh p cnew s.mem (St.addr_ne_of_not_alive s p hfresh)]

theorem writeLoop_gen (gen : G → E × G) (rem : Nat) :
    ∀ (nth : Nat) (g : G) (arr : List (Option E)),
      (writeLoop gen rem nth g arr).2 = genIter gen rem g := by
  induction rem with
  | zero => intro nth g arr; rfl
  | succ r ih =>
    intro nth g arr
    simp only [writeLoop, genIter]
    exact ih (nth + 1) (gen g).2 (arr.set nth (some (gen g).1))

theorem writeLoop_length (gen : G → E × G) (rem : Nat) :
    ∀ (nth : Nat) (g : G) (arr : List (Option E)),
      (writeLoop gen rem nth g arr).1.length = arr.length := by
  induction rem with
  | zero => intro nth g arr; rfl
  | succ r ih =>
    intro nth g arr
    simp only [writeLoop]
    rw [ih (nth + 1) (gen g).2 (arr.set nth (some (gen g).1)), List.length_set]

theorem writeLoop_get_lt (gen : G → E × G) (rem : Nat) :
    ∀ (nth : Nat) (g : G) (arr : List (Option E)) (k : Nat), k < nth →
      (writeLoop gen rem nth g arr).1[k]? = arr[k]? := by
  induction rem with
  | zero => intro nth g arr k _; rfl
  | succ r ih =>
    intro nth g arr k hk
    simp only [writeLoop]
    rw [ih (nth + 1) (gen g).2 _ k (Nat.lt_succ_of_lt hk)]
    exact List.getElem?_set_ne (by omega)

theorem writeLoop_get_main (gen : G → E × G) (rem : Nat) :
    ∀ (nth : Nat) (g : G) (arr : List (Option E)) (j : Nat),
      j < rem → nth + rem ≤ arr.length →
      (writeLoop gen rem nth g arr).1[nth + j]? = some (some (genNth gen j g)) := by
  induction rem with
  | zero => intro _ _ _ j hj _; omega
  | succ r ih =>
    intro nth g arr j hj hlen
    simp only [writeLoop]
    cases j with
    | zero =>
      show (writeLoop gen r (nth + 1) (gen g).2 (arr.set nth (some (gen g).1))).1[nth]? =
        some (some (genNth gen 0 g))
      rw [writeLoop_get_lt gen r (nth + 1) (gen g).2 _ nth (Nat.lt_succ_self nth),
        List.getElem?_set_self (by omega)]
      rfl
    | succ j1 =>
      have h := ih (nth + 1) (gen g).2 (arr.set nth (some (gen g).1)) j1 (by omega)
        (by rw [List.length_set]; omega)
      rw [show nth + (j1 + 1) = nth + 1 + j1 by omega, h]
      rfl

/-- C9: new_from_fn performs exactly one allocation sized for the whole
array (len times the element size, one new entry in the allocation list),
populates the slots in index order 0..len with exactly one generator call
per slot (the returned generator state is the len-fold iterate), and slot i
of the stored array holds the i-th generated value; new_default is
new_from_fn over the stateless default generator. -/
theorem array_constructor_populates_in_order (len szE : Nat) (gen : G → E × G) (g0 : G)
    (ptr : Nat) (s : St (List (Option E))) (d : E)
    (hptr : ptr ≠ 0) (hfresh : s.isAlive ptr = false) :
    (∃ arr : List (Option E),
      Heap.new_from_fn len szE gen g0 ptr s =
        (some ⟨ptr⟩,
          { mem := ⟨ptr, len * szE, Cell.value arr⟩ :: s.mem, traced := s.traced + len * szE },
          genIter gen len g0) ∧
      arr.length = len ∧
      (∀ i, i < len → arr[i]? = some (some (genNth gen i g0)))) ∧
    Heap.new_default len szE d ptr s = Heap.new_from_fn len szE (fun _ => (d, ())) () ptr s := by
  refine ⟨⟨(writeLoop gen len 0 g0 (List.replicate len Option.none)).1, ?_, ?_, ?_⟩, rfl⟩
  · unfold Heap.new_from_fn
    rw [heap_new_uninit_success (len * szE) ptr s hptr]
    simp only [Heap.assume_init]
    rw [write_cons_fresh ptr (len * szE) Cell.uninit _ s (s.traced + len * szE) hfresh,
      writeLoop_gen gen len 0 g0 (List.replicate len Option.none)]
  · rw [writeLoop_length gen len 0 g0 (List.replicate len Option.none), List.length_replicate]
  · intro i hi
    have h := writeLoop_get_main gen len 0 g0 (List.replicate len Option.none) i hi
      (by rw [List.length_replicate]; omega)
    rw [Nat.zero_add] at h
    exact h

/-- Witness for C9: the 9-element generator walking the byte sequence of
the string Testolope produces an array whose slot i holds the i-th byte. -/
theorem array_constructor_populates_in_order_witness :
    (∃ arr : List (Option Nat),
      Heap.new_from_fn 9 1
          (fun i : Nat => (List.getD [84, 101, 115, 116, 111, 108, 111, 112, 101] i 0, i + 1)) 0 1
          { mem := [], traced := 0 } =
        (some ⟨1⟩, { mem := [⟨1, 9 * 1, Cell.value arr⟩], traced := 0 + 9 * 1 },
          genIter (fun i : Nat => (List.getD [84, 101, 115, 116, 111, 108, 111, 112, 101] i 0, i + 1)) 9 0) ∧
      arr.length = 9 ∧
      (∀ i, i < 9 → arr[i]? = some (some (genNth
        (fun i : Nat => (List.getD [84, 101, 115, 116, 111, 108, 111, 112, 101] i 0, i + 1)) i 0)))) ∧
    Heap.new_default 9 1 (0 : Nat) 1 { mem := [], traced := 0 } =
      Heap.new_from_fn 9 1 (fun _ => ((0 : Nat), ())) () 1 { mem := [], traced := 0 } :=
  array_constructor_populates_in_order 9 1
    (fun i : Nat => (List.getD [84, 101, 115, 116, 111, 108, 111, 112, 101] i 0, i + 1)) 0 1
    { mem := [], traced := 0 } 0 (by decide) (by decide)

/-! Operation-level computation lemmas for the shared-family machine. -/

theorem upgrade_spec_zero (w : HeapRefWeak) (s : St T) (h : w.strong s = 0) :
    HeapRefWeak.upgrade w s = (none, s) := by
  unfold HeapRefWeak.upgrade
  rw [if_pos h]

theorem upgrade_spec_pos (w : HeapRefWeak) (s : St T) (h : ¬w.strong s = 0) :
    HeapRefWeak.upgrade w s =
      (some ⟨w.value, w.refctr⟩,
        s.updateCounter w.refctr (fun c => { c with strong := c.strong + 1 })) := by
  unfold HeapRefWeak.upgrade
  rw [if_neg h]

theorem tryUnwrap_gt_one (hr : HeapRef) (s : St T) (h : 1 < hr.strong s) :
    HeapRef.try_unwrap_heap hr s = some (Except.error hr, s) := by
  unfold HeapRef.try_unwrap_heap
  rw [if_pos h]

theorem tryUnwrap_spec_keepRecord (hr : HeapRef) (s : St T) (c : RefCounter)
    (hc : s.counterAt hr.refctr = some c) (h1 : c.strong ≤ 1) (hw : 0 < c.weak)
    (hv : hr.value ≠ 0) :
    HeapRef.try_unwrap_heap hr s =
      some (Except.ok ⟨hr.value⟩,
        s.updateCounter hr.refctr (fun c => { c with strong := 0 })) := by
  have hsAt : hr.strong s = c.strong := St.strongAt_of_counterAt s hr.refctr c hc
  have hfr : Heap.from_raw hr.value = some ⟨hr.value⟩ := by
    unfold Heap.from_raw
    rw [if_neg hv]
  have hctr1 : (s.updateCounter hr.refctr (fun c => { c with strong := 0 })).counterAt hr.refctr =
      some ⟨0, c.weak⟩ := by
    simpa using St.counterAt_updateCounter_self s hr.refctr (fun c => { c with strong := 0 }) c hc
  have hweak1 : (s.updateCounter hr.refctr (fun c => { c with strong := 0 })).weakAt hr.refctr =
      c.weak := St.weakAt_of_counterAt _ _ ⟨0, c.weak⟩ hctr1
  unfold HeapRef.try_unwrap_heap
  rw [if_neg (by rw [hsAt]; omega)]
  simp only [hfr, hweak1]
  rw [if_neg (by omega)]

theorem tryUnwrap_spec_freeRecord (hr : HeapRef) (s : St T) (c : RefCounter)
    (hc : s.counterAt hr.refctr = some c) (h1 : c.strong ≤ 1) (hw : c.weak = 0)
    (hv : hr.value ≠ 0) (hrc : hr.refctr ≠ 0) :
    HeapRef.try_unwrap_heap hr s =
      some (Except.ok ⟨hr.value⟩,
        ((s.updateCounter hr.refctr (fun c => { c with strong := 0 })).free
          hr.refctr).decTrace OVERHEAD) := by
  have hsAt : hr.strong s = c.strong := St.strongAt_of_counterAt s hr.refctr c hc
  have hfr : Heap.from_raw hr.value = some ⟨hr.value⟩ := by
    unfold Heap.from_raw
    rw [if_neg hv]
  have hfrc : Heap.from_raw hr.refctr = some ⟨hr.refctr⟩ := by
    unfold Heap.from_raw
    rw [if_neg hrc]
  have hctr1 : (s.updateCounter hr.refctr (fun c => { c with strong := 0 })).counterAt hr.refctr =
      some ⟨0, c.weak⟩ := by
    simpa using St.counterAt_updateCounter_self s hr.refctr (fun c => { c with strong := 0 }) c hc
  have hweak1 : (s.updateCounter hr.refctr (fun c => { c with strong := 0 })).weakAt hr.refctr =
      c.weak := St.weakAt_of_counterAt _ _ ⟨0, c.weak⟩ hctr1
  unfold HeapRef.try_unwrap_heap
  rw [if_neg (by rw [hsAt]; omega)]
  simp only [hfr, hfrc, hweak1]
  rw [if_pos hw]
  rfl

theorem tryUnwrap_err_inv (hr hr1 : HeapRef) (s s1 : St T)
    (h : HeapRef.try_unwrap_heap hr s = some (Except.error hr1, s1)) :
    hr1 = hr ∧ s1 = s ∧ 1 < hr.strong s := by
  unfold HeapRef.try_unwrap_heap at h
  by_cases hgt : 1 < hr.strong s
  · rw [if_pos hgt] at h
    refine ⟨?_, ?_, hgt⟩ <;> cases h <;> rfl
  · rw [if_neg hgt] at h
    cases hfr : Heap.from_raw hr.value with
    | none => rw [hfr] at h; cases h
    | some value =>
      rw [hfr] at h
      simp only [] at h
      by_cases hwz : (s.updateCounter hr.refctr (fun c => { c with strong := 0 })).weakAt
          hr.refctr = 0
      · rw [if_pos hwz] at h
        cases hfrc : Heap.from_raw hr.refctr with
        | none => rw [hfrc] at h; cases h
        | some refctr => rw [hfrc] at h; cases h
      · rw [if_neg hwz] at h
        cases h

theorem dropOp_spec_keep (sz : Nat) (hr : HeapRef) (s : St T) (c : RefCounter)
    (hc : s.counterAt hr.refctr = some c) (h2 : 2 ≤ c.strong) :
    HeapRef.dropOp sz hr s =
      some (s.updateCounter hr.refctr (fun c => { c with strong := c.strong - 1 })) := by
  have hctr1 : (s.updateCounter hr.refctr
      (fun c => { c with strong := c.strong - 1 })).counterAt hr.refctr =
      some ⟨c.strong - 1, c.weak⟩ := by
    simpa using St.counterAt_updateCounter_self s hr.refctr
      (fun c => { c with strong := c.strong - 1 }) c hc
  have hs1 : (s.updateCounter hr.refctr
      (fun c => { c with strong := c.strong - 1 })).strongAt hr.refctr = c.strong - 1 :=
    St.strongAt_of_counterAt _ _ ⟨c.strong - 1, c.weak⟩ hctr1
  unfold HeapRef.dropOp
  simp only [hs1]
  rw [if_neg (by omega)]
  simp only [Option.some_bind, hs1]
  rw [if_neg (by simp; omega)]

theorem dropOp_spec_value (sz : Nat) (hr : HeapRef) (s : St T) (c : RefCounter)
    (hc : s.counterAt hr.refctr = some c) (h1 : c.strong = 1) (hw : 0 < c.weak)
    (hv : hr.value ≠ 0) (hne : hr.value ≠ hr.refctr) :
    HeapRef.dropOp sz hr s =
      some (((s.updateCounter hr.refctr
        (fun c => { c with strong := c.strong - 1 })).free hr.value).decTrace sz) := by
  have hctr1 : (s.updateCounter hr.refctr
      (fun c => { c with strong := c.strong - 1 })).counterAt hr.refctr =
      some ⟨c.strong - 1, c.weak⟩ := by
    simpa using St.counterAt_updateCounter_self s hr.refctr
      (fun c => { c with strong := c.strong - 1 }) c hc
  have hs1 : (s.updateCounter hr.refctr
      (fun c => { c with strong := c.strong - 1 })).strongAt hr.refctr = c.strong - 1 :=
    St.strongAt_of_counterAt _ _ ⟨c.strong - 1, c.weak⟩ hctr1
  have hfr : Heap.from_raw hr.value = some ⟨hr.value⟩ := by
    unfold Heap.from_raw
    rw [if_neg hv]
  have hctr2 : ((((s.updateCounter hr.refctr
      (fun c => { c with strong := c.strong - 1 })).free hr.value).decTrace sz)).counterAt
      hr.refctr = some ⟨c.strong - 1, c.weak⟩ := by
    rw [St.counterAt_decTrace, St.counterAt_free_ne _ _ _ (Ne.symm hne)]
    exact hctr1
  have hs2 : ((((s.updateCounter hr.refctr
      (fun c => { c with strong := c.strong - 1 })).free hr.value).decTrace sz)).strongAt
      hr.refctr = c.strong - 1 := St.strongAt_of_counterAt _ _ ⟨c.strong - 1, c.weak⟩ hctr2
  have hw2 : ((((s.updateCounter hr.refctr
      (fun c => { c with strong := c.strong - 1 })).free hr.value).decTrace sz)).weakAt
      hr.refctr = c.weak := St.weakAt_of_counterAt _ _ ⟨c.strong - 1, c.weak⟩ hctr2
  unfold HeapRef.dropOp
  simp only [hs1]
  rw [if_pos (by omega), hfr]
  simp only [Option.map_some', Option.some_bind, Heap.drop]
  simp only [hs2, hw2]
  rw [if_neg (by simp; omega)]

theorem dropOp_spec_all (sz : Nat) (hr : HeapRef) (s : St T) (c : RefCounter)
    (hc : s.counterAt hr.refctr = some c) (h1 : c.strong = 1) (hw : c.weak = 0)
    (hv : hr.value ≠ 0) (hrc : hr.refctr ≠ 0) (hne : hr.value ≠ hr.refctr) :
    HeapRef.dropOp sz hr s =
      some (((((s.updateCounter hr.refctr
        (fun c => { c with strong := c.strong - 1 })).free hr.value).decTrace sz).free
          hr.refctr).decTrace OVERHEAD) := by
  have hctr1 : (s.updateCounter hr.refctr
      (fun c => { c with strong := c.strong - 1 })).counterAt hr.refctr =
      some ⟨c.strong - 1, c.weak⟩ := by
    simpa using St.counterAt_updateCounter_self s hr.refctr
      (fun c => { c with strong := c.strong - 1 }) c hc
  have hs1 : (s.updateCounter hr.refctr
      (fun c => { c with strong := c.strong - 1 })).strongAt hr.refctr = c.strong - 1 :=
    St.strongAt_of_counterAt _ _ ⟨c.strong - 1, c.weak⟩ hctr1
  have hfr : Heap.from_raw hr.value = some ⟨hr.value⟩ := by
    unfold Heap.from_raw
    rw [if_neg hv]
  have hfrc : Heap.from_raw hr.refctr = some ⟨hr.refctr⟩ := by
    unfold Heap.from_raw
    rw [if_neg hrc]
  have hctr2 : ((((s.updateCounter hr.refctr
      (fun c => { c with strong := c.strong - 1 })).free hr.value).decTrace sz)).counterAt
      hr.refctr = some ⟨c.strong - 1, c.weak⟩ := by
    rw [St.counterAt_decTrace, St.counterAt_free_ne _ _ _ (Ne.symm hne)]
    exact hctr1
  have hs2 : ((((s.updateCounter hr.refctr
      (fun c => { c with strong := c.strong - 1 })).free hr.value).decTrace sz)).strongAt
      hr.refctr = c.strong - 1 := St.strongAt_of_counterAt _ _ ⟨c.strong - 1, c.weak⟩ hctr2
  have hw2 : ((((s.updateCounter hr.refctr
      (fun c => { c with strong := c.strong - 1 })).free hr.value).decTrace sz)).weakAt
      hr.refctr = c.weak := St.weakAt_of_counterAt _ _ ⟨c.strong - 1, c.weak⟩ hctr2
  unfold HeapRef.dropOp
  simp only [hs1]
  rw [if_pos (by omega), hfr]
  simp only [Option.map_some', Option.some_bind, Heap.drop]
  simp only [hs2, hw2]
  rw [if_pos (by simp; omega), hfrc]
  rfl

theorem weakDropOp_spec_keep (w : HeapRefWeak) (s : St T) (c : RefCounter)
    (hc : s.counterAt w.refctr = some c) (hcond : 0 < c.strong ∨ 2 ≤ c.weak) :
    HeapRefWeak.dropOp w s =
      some (s.updateCounter w.refctr (fun c => { c with weak := c.weak - 1 })) := by
  have hctr1 : (s.updateCounter w.refctr
      (fun c => { c with weak := c.weak - 1 })).counterAt w.refctr =
      some ⟨c.strong, c.weak - 1⟩ := by
    simpa using St.counterAt_updateCounter_self s w.refctr
      (fun c => { c with weak := c.weak - 1 }) c hc
  have hs1 : (s.updateCounter w.refctr
      (fun c => { c with weak := c.weak - 1 })).strongAt w.refctr = c.strong :=
    St.strongAt_of_counterAt _ _ ⟨c.strong, c.weak - 1⟩ hctr1
  have hw1 : (s.updateCounter w.refctr
      (fun c => { c with weak := c.weak - 1 })).weakAt w.refctr = c.weak - 1 :=
    St.weakAt_of_counterAt _ _ ⟨c.strong, c.weak - 1⟩ hctr1
  unfold HeapRefWeak.dropOp
  simp only [hs1, hw1]
  rw [if_neg (by simp; omega)]

theorem weakDropOp_spec_free (w : HeapRefWeak) (s : St T) (c : RefCounter)
    (hc : s.counterAt w.refctr = some c) (hs : c.strong = 0) (hw : c.weak ≤ 1)
    (hrc : w.refctr ≠ 0) :
    HeapRefWeak.dropOp w s =
      some (((s.updateCounter w.refctr (fun c => { c with weak := c.weak - 1 })).free
        w.refctr).decTrace OVERHEAD) := by
  have hctr1 : (s.updateCounter w.refctr
      (fun c => { c with weak := c.weak - 1 })).counterAt w.refctr =
      some ⟨c.strong, c.weak - 1⟩ := by
    simpa using St.counterAt_updateCounter_self s w.refctr
      (fun c => { c with weak := c.weak - 1 }) c hc
  have hs1 : (s.updateCounter w.refctr
      (fun c => { c with weak := c.weak - 1 })).strongAt w.refctr = c.strong :=
    St.strongAt_of_counterAt _ _ ⟨c.strong, c.weak - 1⟩ hctr1
  have hw1 : (s.updateCounter w.refctr
      (fun c => { c with weak := c.weak - 1 })).weakAt w.refctr = c.weak - 1 :=
    St.weakAt_of_counterAt _ _ ⟨c.strong, c.weak - 1⟩ hctr1
  have hfrc : Heap.from_raw w.refctr = some ⟨w.refctr⟩ := by
    unfold Heap.from_raw
    rw [if_neg hrc]
  unfold HeapRefWeak.dropOp
  simp only [hs1, hw1]
  rw [if_pos (by simp; omega), hfrc]
  rfl

/-- Builds the family invariant from its components. -/
theorem famInv_mk (pv pc sh wh : Nat) (ow : Bool) (st : St T)
    (h1 : pv ≠ 0) (h2 : pc ≠ 0) (h3 : pv ≠ pc) (h4 : st.addrNodup)
    (h5 : st.isAlive pc = true ↔ 0 < sh + wh)
    (h6 : st.isAlive pc = true → st.counterAt pc = some ⟨sh, wh⟩)
    (h7 : 0 < st.strongAt pc ↔ (ow = true ∧ st.isAlive pv = true))
    (h8 : ow = false → sh = 0) :
    FamInv pv pc ⟨sh, wh, ow, st⟩ :=
  ⟨h1, h2, h3, h4, h5, h6, h7, h8⟩

/-- Preservation of the family invariant by every step of the shared/weak
state machine; the core induction shared by the invariant and the
no-resurrection theorems. -/
theorem famStep_preserves_inv (sz pv pc : Nat) (f f1 : Fam T)
    (hinv : FamInv pv pc f) (hstep : FamStep sz pv pc f f1) :
    FamInv pv pc f1 := by
  obtain ⟨hpv0, hpc0, hpvpc, hnd, hAliveIff, hCtr, hStrongIff, hOwn⟩ := hinv
  cases hstep with
  | clone h =>
    have hAliveT : f.st.isAlive pc = true := hAliveIff.mpr (by omega)
    have hCtrS := hCtr hAliveT
    have hSAt : f.st.strongAt pc = f.strongH :=
      St.strongAt_of_counterAt _ _ _ hCtrS
    have hOA := hStrongIff.mp (by rw [hSAt]; omega)
    rw [HeapRef.clone_st]
    have hctr1 : (f.st.updateCounter pc
        (fun c => { c with strong := c.strong + 1 })).counterAt pc =
        some ⟨f.strongH + 1, f.weakH⟩ := by
      simpa using St.counterAt_updateCounter_self f.st pc
        (fun c => { c with strong := c.strong + 1 }) _ hCtrS
    refine famInv_mk pv pc _ _ _ _ hpv0 hpc0 hpvpc
      (St.addrNodup_updateCounter _ _ _ hnd) ?_ ?_ ?_ ?_
    · rw [St.isAlive_updateCounter]
      exact ⟨fun _ => by omega, fun _ => hAliveT⟩
    · intro _
      exact hctr1
    · have hs1At : (f.st.updateCounter pc
          (fun c => { c with strong := c.strong + 1 })).strongAt pc = f.strongH + 1 := by
        simpa using St.strongAt_of_counterAt _ _ _ hctr1
      rw [hs1At, St.isAlive_updateCounter]
      exact iff_of_true (by omega) ⟨hOA.1, hOA.2⟩
    · intro hfo
      exact Bool.noConfusion (hOA.1.symm.trans hfo)
  | downgrade h =>
    have hAliveT : f.st.isAlive pc = true := hAliveIff.mpr (by omega)
    have hCtrS := hCtr hAliveT
    have hSAt : f.st.strongAt pc = f.strongH :=
      St.strongAt_of_counterAt _ _ _ hCtrS
    have hOA := hStrongIff.mp (by rw [hSAt]; omega)
    rw [HeapRef.downgrade_st]
    have hctr1 : (f.st.updateCounter pc
        (fun c => { c with weak := c.weak + 1 })).counterAt pc =
        some ⟨f.strongH, f.weakH + 1⟩ := by
      simpa using St.counterAt_updateCounter_self f.st pc
        (fun c => { c with weak := c.weak + 1 }) _ hCtrS
    refine famInv_mk pv pc _ _ _ _ hpv0 hpc0 hpvpc
      (St.addrNodup_updateCounter _ _ _ hnd) ?_ ?_ ?_ ?_
    · rw [St.isAlive_updateCounter]
      exact ⟨fun _ => by omega, fun _ => hAliveT⟩
    · intro _
      exact hctr1
    · have hs1At : (f.st.updateCounter pc
          (fun c => { c with weak := c.weak + 1 })).strongAt pc = f.strongH := by
        simpa using St.strongAt_of_counterAt _ _ _ hctr1
      rw [hs1At, St.isAlive_updateCounter]
      exact iff_of_true (by omega) ⟨hOA.1, hOA.2⟩
    · intro hfo
      exact Bool.noConfusion (hOA.1.symm.trans hfo)
  | weakClone h =>
    have hAliveT : f.st.isAlive pc = true := hAliveIff.mpr (by omega)
    have hCtrS := hCtr hAliveT
    have hSAt : f.st.strongAt pc = f.strongH :=
      St.strongAt_of_counterAt _ _ _ hCtrS
    rw [HeapRefWeak.cloneWeak_st]
    have hctr1 : (f.st.updateCounter pc
        (fun c => { c with weak := c.weak + 1 })).counterAt pc =
        some ⟨f.strongH, f.weakH + 1⟩ := by
      simpa using St.counterAt_updateCounter_self f.st pc
        (fun c => { c with weak := c.weak + 1 }) _ hCtrS
    refine famInv_mk pv pc _ _ _ _ hpv0 hpc0 hpvpc
      (St.addrNodup_updateCounter _ _ _ hnd) ?_ ?_ ?_ ?_
    · rw [St.isAlive_updateCounter]
      exact ⟨fun _ => by omega, fun _ => hAliveT⟩
    · intro _
      exact hctr1
    · have hs1At : (f.st.updateCounter pc
          (fun c => { c with weak := c.weak + 1 })).strongAt pc = f.strongH := by
        simpa using St.strongAt_of_counterAt _ _ _ hctr1
      rw [hs1At, St.isAlive_updateCounter]
      rw [hSAt] at hStrongIff
      exact hStrongIff
    · exact hOwn
  | dropStrong s1 h hd =>
    have hAliveT : f.st.isAlive pc = true := hAliveIff.mpr (by omega)
    have hCtrS := hCtr hAliveT
    have hSAt : f.st.strongAt pc = f.strongH :=
      St.strongAt_of_counterAt _ _ _ hCtrS
    have hOA := hStrongIff.mp (by rw [hSAt]; omega)
    by_cases hsh2 : 2 ≤ f.strongH
    · rw [dropOp_spec_keep sz ⟨pv, pc⟩ f.st ⟨f.strongH, f.weakH⟩ hCtrS hsh2] at hd
      injection hd with hd1
      subst hd1
      have hctr1 : (f.st.updateCounter pc
          (fun c => { c with strong := c.strong - 1 })).counterAt pc =
          some ⟨f.strongH - 1, f.weakH⟩ := by
        simpa using St.counterAt_updateCounter_self f.st pc
          (fun c => { c with strong := c.strong - 1 }) _ hCtrS
      refine famInv_mk pv pc _ _ _ _ hpv0 hpc0 hpvpc
        (St.addrNodup_updateCounter _ _ _ hnd) ?_ ?_ ?_ ?_
      · rw [St.isAlive_updateCounter]
        exact ⟨fun _ => by omega, fun _ => hAliveT⟩
      · intro _
        exact hctr1
      · have hs1At : (f.st.updateCounter pc
            (fun c => { c with strong := c.strong - 1 })).strongAt pc = f.strongH - 1 := by
          simpa using St.strongAt_of_counterAt _ _ _ hctr1
        rw [hs1At, St.isAlive_updateCounter]
        exact iff_of_true (by omega) ⟨hOA.1, hOA.2⟩
      · intro hfo
        exact Bool.noConfusion (hOA.1.symm.trans hfo)
    · have hsh1 : f.strongH = 1 := by omega
      by_cases hwz : f.weakH = 0
      · rw [dropOp_spec_all sz ⟨pv, pc⟩ f.st ⟨f.strongH, f.weakH⟩ hCtrS
          (by simpa using hsh1) (by simpa using hwz) hpv0 hpc0 hpvpc] at hd
        injection hd with hd1
        subst hd1
        have hnd1 : ((f.st.updateCounter pc
            (fun c => { c with strong := c.strong - 1 })).free pv).addrNodup :=
          St.addrNodup_free _ _ (St.addrNodup_updateCounter _ _ _ hnd)
        have hnd2 : ((((f.st.updateCounter pc
            (fun c => { c with strong := c.strong - 1 })).free pv).decTrace sz).free
            pc).addrNodup := St.addrNodup_free _ _ hnd1
        have hAliveC : (((((f.st.updateCounter pc
            (fun c => { c with strong := c.strong - 1 })).free pv).decTrace sz).free
            pc).decTrace OVERHEAD).isAlive pc = false := by
          rw [St.isAlive_decTrace]
          exact St.isAlive_free_self _ _ hnd1
        have hAliveV : (((((f.st.updateCounter pc
            (fun c => { c with strong := c.strong - 1 })).free pv).decTrace sz).free
            pc).decTrace OVERHEAD).isAlive pv = false := by
          rw [St.isAlive_decTrace, St.isAlive_free_ne _ _ _ hpvpc, St.isAlive_decTrace]
          exact St.isAlive_free_self _ _ (St.addrNodup_updateCounter _ _ _ hnd)
        refine famInv_mk pv pc _ _ _ _ hpv0 hpc0 hpvpc
          (St.addrNodup_decTrace _ _ hnd2) ?_ ?_ ?_ ?_
        · rw [hAliveC]
          constructor
          · intro hcon
            exact Bool.noConfusion hcon
          · intro hcon
            omega
        · intro halive
          exact Bool.noConfusion (hAliveC.symm.trans halive)
        · rw [St.strongAt_eq_zero_of_not_alive _ _ hAliveC, hAliveV]
          exact iff_of_false (by omega) (fun hcon => Bool.noConfusion hcon.2)
        · intro _
          omega
      · rw [dropOp_spec_value sz ⟨pv, pc⟩ f.st ⟨f.strongH, f.weakH⟩ hCtrS
          (by simpa using hsh1) (by simp; omega) hpv0 hpvpc] at hd
        injection hd with hd1
        subst hd1
        have hctr1 : (((f.st.updateCounter pc
            (fun c => { c with strong := c.strong - 1 })).free pv).decTrace sz).counterAt
            pc = some ⟨f.strongH - 1, f.weakH⟩ := by
          rw [St.counterAt_decTrace, St.counterAt_free_ne _ _ _ (Ne.symm hpvpc)]
          simpa using St.counterAt_updateCounter_self f.st pc
            (fun c => { c with strong := c.strong - 1 }) _ hCtrS
        have hAliveV : (((f.st.updateCounter pc
            (fun c => { c with strong := c.strong - 1 })).free pv).decTrace sz).isAlive
            pv = false := by
          rw [St.isAlive_decTrace]
          exact St.isAlive_free_self _ _ (St.addrNodup_updateCounter _ _ _ hnd)
        refine famInv_mk pv pc _ _ _ _ hpv0 hpc0 hpvpc
          (St.addrNodup_decTrace _ _
            (St.addrNodup_free _ _ (St.addrNodup_updateCounter _ _ _ hnd))) ?_ ?_ ?_ ?_
        · rw [St.isAlive_of_counterAt_some _ _ _ hctr1]
          exact ⟨fun _ => by omega, fun _ => rfl⟩
        · intro _
          exact hctr1
        · have hs1At : ((((f.st.updateCounter pc
              (fun c => { c with strong := c.strong - 1 })).free pv).decTrace
              sz)).strongAt pc = f.strongH - 1 := by
            simpa using St.strongAt_of_counterAt _ _ _ hctr1
          rw [hs1At, hAliveV]
          exact iff_of_false (by omega) (fun hcon => Bool.noConfusion hcon.2)
        · intro _
          omega
  | dropWeak s1 h hd =>
    have hAliveT : f.st.isAlive pc = true := hAliveIff.mpr (by omega)
    have hCtrS := hCtr hAliveT
    have hSAt : f.st.strongAt pc = f.strongH :=
      St.strongAt_of_counterAt _ _ _ hCtrS
    by_cases hkeep : 0 < f.strongH ∨ 2 ≤ f.weakH
    · rw [weakDropOp_spec_keep ⟨pv, pc⟩ f.st ⟨f.strongH, f.weakH⟩ hCtrS
        (by simp; omega)] at hd
      injection hd with hd1
      subst hd1
      have hctr1 : (f.st.updateCounter pc
          (fun c => { c with weak := c.weak - 1 })).counterAt pc =
          some ⟨f.strongH, f.weakH - 1⟩ := by
        simpa using St.counterAt_updateCounter_self f.st pc
          (fun c => { c with weak := c.weak - 1 }) _ hCtrS
      refine famInv_mk pv pc _ _ _ _ hpv0 hpc0 hpvpc
        (St.addrNodup_updateCounter _ _ _ hnd) ?_ ?_ ?_ ?_
      · rw [St.isAlive_updateCounter]
        exact ⟨fun _ => by omega, fun _ => hAliveT⟩
      · intro _
        exact hctr1
      · have hs1At : (f.st.updateCounter pc
            (fun c => { c with weak := c.weak - 1 })).strongAt pc = f.strongH := by
          simpa using St.strongAt_of_counterAt _ _ _ hctr1
        rw [hs1At, St.isAlive_updateCounter]
        rw [hSAt] at hStrongIff
        exact hStrongIff
      · exact hOwn
    · have hs0 : f.strongH = 0 := by omega
      have hw1 : f.weakH = 1 := by omega
      rw [weakDropOp_spec_free ⟨pv, pc⟩ f.st ⟨f.strongH, f.weakH⟩ hCtrS
        (by simpa using hs0) (by simp; omega) hpc0] at hd
      injection hd with hd1
      subst hd1
      have hnd1 : (f.st.updateCounter pc
          (fun c => { c with weak := c.weak - 1 })).addrNodup :=
        St.addrNodup_updateCounter _ _ _ hnd
      have hAliveC : (((f.st.updateCounter pc
          (fun c => { c with weak := c.weak - 1 })).free pc).decTrace OVERHEAD).isAlive
          pc = false := by
        rw [St.isAlive_decTrace]
        exact St.isAlive_free_self _ _ hnd1
      have hAliveV : (((f.st.updateCounter pc
          (fun c => { c with weak := c.weak - 1 })).free pc).decTrace OVERHEAD).isAlive
          pv = f.st.isAlive pv := by
        rw [St.isAlive_decTrace, St.isAlive_free_ne _ _ _ hpvpc, St.isAlive_updateCounter]
      have hneg : ¬(f.owned = true ∧ f.st.isAlive pv = true) := by
        intro hcon
        have hpos := hStrongIff.mpr hcon
        rw [hSAt, hs0] at hpos
        omega
      refine famInv_mk pv pc _ _ _ _ hpv0 hpc0 hpvpc
        (St.addrNodup_decTrace _ _ (St.addrNodup_free _ _ hnd1)) ?_ ?_ ?_ ?_
      · rw [hAliveC]
        constructor
        · intro hcon
          exact Bool.noConfusion hcon
        · intro hcon
          omega
      · intro halive
        exact Bool.noConfusion (hAliveC.symm.trans halive)
      · rw [St.strongAt_eq_zero_of_not_alive _ _ hAliveC, hAliveV]
        exact iff_of_false (by omega) hneg
      · intro _
        exact hs0
  | upgradeNone h hu =>
    by_cases hsz : HeapRefWeak.strong ⟨pv, pc⟩ f.st = 0
    · rw [upgrade_spec_zero _ _ hsz]
      exact ⟨hpv0, hpc0, hpvpc, hnd, hAliveIff, hCtr, hStrongIff, hOwn⟩
    · rw [upgrade_spec_pos _ _ hsz] at hu
      simp at hu
  | upgradeSome hr h hu =>
    by_cases hsz : HeapRefWeak.strong ⟨pv, pc⟩ f.st = 0
    · rw [upgrade_spec_zero _ _ hsz] at hu
      simp at hu
    · rw [upgrade_spec_pos _ _ hsz]
      have hAliveT : f.st.isAlive pc = true := by
        cases hAl : f.st.isAlive pc with
        | false =>
          exact absurd (St.strongAt_eq_zero_of_not_alive _ _ hAl) hsz
        | true => rfl
      have hCtrS := hCtr hAliveT
      have hSAt : f.st.strongAt pc = f.strongH :=
        St.strongAt_of_counterAt _ _ _ hCtrS
      have hshpos : 0 < f.strongH := by
        rcases Nat.eq_zero_or_pos f.strongH with h0 | hpos
        · exact absurd (by rw [hSAt, h0] : f.st.strongAt pc = 0) hsz
        · exact hpos
      have hOA := hStrongIff.mp (by rw [hSAt]; omega)
      have hctr1 : (f.st.updateCounter pc
          (fun c => { c with strong := c.strong + 1 })).counterAt pc =
          some ⟨f.strongH + 1, f.weakH⟩ := by
        simpa using St.counterAt_updateCounter_self f.st pc
          (fun c => { c with strong := c.strong + 1 }) _ hCtrS
      refine famInv_mk pv pc _ _ _ _ hpv0 hpc0 hpvpc
        (St.addrNodup_updateCounter _ _ _ hnd) ?_ ?_ ?_ ?_
      · rw [St.isAlive_updateCounter]
        exact ⟨fun _ => by omega, fun _ => hAliveT⟩
      · intro _
        exact hctr1
      · have hs1At : (f.st.updateCounter pc
            (fun c => { c with strong := c.strong + 1 })).strongAt pc = f.strongH + 1 := by
          simpa using St.strongAt_of_counterAt _ _ _ hctr1
        rw [hs1At, St.isAlive_updateCounter]
        exact iff_of_true (by omega) ⟨hOA.1, hOA.2⟩
      · intro hfo
        exact Bool.noConfusion (hOA.1.symm.trans hfo)
  | unwrapOk hv1 s1 h hu =>
    have hAliveT : f.st.isAlive pc = true := hAliveIff.mpr (by omega)
    have hCtrS := hCtr hAliveT
    have hSAt : f.st.strongAt pc = f.strongH :=
      St.strongAt_of_counterAt _ _ _ hCtrS
    have hsh1 : f.strongH = 1 := by
      by_contra hne1
      have hgt : 1 < HeapRef.strong ⟨pv, pc⟩ f.st := by
        show 1 < f.st.strongAt pc
        rw [hSAt]
        omega
      rw [tryUnwrap_gt_one _ _ hgt] at hu
      simp at hu
    by_cases hwz : f.weakH = 0
    · rw [tryUnwrap_spec_freeRecord ⟨pv, pc⟩ f.st ⟨f.strongH, f.weakH⟩ hCtrS
        (by simp; omega) (by simpa using hwz) hpv0 hpc0] at hu
      simp only [Option.some.injEq, Prod.mk.injEq, Except.ok.injEq] at hu
      obtain ⟨-, hs1⟩ := hu
      subst hs1
      have hnd1 : (f.st.updateCounter pc
          (fun c => { c with strong := 0 })).addrNodup :=
        St.addrNodup_updateCounter _ _ _ hnd
      have hAliveC : (((f.st.updateCounter pc
          (fun c => { c with strong := 0 })).free pc).decTrace OVERHEAD).isAlive pc =
          false := by
        rw [St.isAlive_decTrace]
        exact St.isAlive_free_self _ _ hnd1
      refine famInv_mk pv pc _ _ _ _ hpv0 hpc0 hpvpc
        (St.addrNodup_decTrace _ _ (St.addrNodup_free _ _ hnd1)) ?_ ?_ ?_ ?_
      · rw [hAliveC]
        constructor
        · intro hcon
          exact Bool.noConfusion hcon
        · intro hcon
          omega
      · intro halive
        exact Bool.noConfusion (hAliveC.symm.trans halive)
      · rw [St.strongAt_eq_zero_of_not_alive _ _ hAliveC]
        exact iff_of_false (by omega) (fun hcon => Bool.noConfusion hcon.1)
      · intro _
        omega
    · rw [tryUnwrap_spec_keepRecord ⟨pv, pc⟩ f.st ⟨f.strongH, f.weakH⟩ hCtrS
        (by simp; omega) (by simp; omega) hpv0] at hu
      simp only [Option.some.injEq, Prod.mk.injEq, Except.ok.injEq] at hu
      obtain ⟨-, hs1⟩ := hu
      subst hs1
      have hctr1 : (f.st.updateCounter pc
          (fun c => { c with strong := 0 })).counterAt pc = some ⟨0, f.weakH⟩ := by
        simpa using St.counterAt_updateCounter_self f.st pc
          (fun c => { c with strong := 0 }) _ hCtrS
      refine famInv_mk pv pc _ _ _ _ hpv0 hpc0 hpvpc
        (St.addrNodup_updateCounter _ _ _ hnd) ?_ ?_ ?_ ?_
      · rw [St.isAlive_updateCounter]
        exact ⟨fun _ => by omega, fun _ => hAliveT⟩
      · intro _
        have hz : f.strongH - 1 = 0 := by omega
        rw [hz]
        exact hctr1
      · have hs1At : (f.st.updateCounter pc
            (fun c => { c with strong := 0 })).strongAt pc = 0 := by
          simpa using St.strongAt_of_counterAt _ _ _ hctr1
        rw [hs1At]
        exact iff_of_false (by omega) (fun hcon => Bool.noConfusion hcon.1)
      · intro _
        omega
  | unwrapErr hr1 s1 h hu =>
    obtain ⟨-, hs1, -⟩ := tryUnwrap_err_inv ⟨pv, pc⟩ hr1 f.st s1 hu
    subst hs1
    exact ⟨hpv0, hpc0, hpvpc, hnd, hAliveIff, hCtr, hStrongIff, hOwn⟩

/-- C6: the invariant of the shared/weak state machine — the strong count
is positive exactly while the value allocation is alive and still owned by
the shared family, and the counter-record allocation is alive exactly
while strong plus weak is positive — is preserved by every operation
(clone, downgrade, weak clone, strong drop, weak drop, upgrade,
try_unwrap). -/
theorem fam_invariant_preserved (sz pv pc : Nat) (f f1 : Fam T)
    (hinv : FamInv pv pc f) (hstep : FamStep sz pv pc f f1) :
    FamInv pv pc f1 :=
  famStep_preserves_inv sz pv pc f f1 hinv hstep

/-- Witness for C6: cloning the sole strong handle of a freshly built
family preserves the invariant. -/
theorem fam_invariant_preserved_witness :
    FamInv 1 2 (⟨1 + 1, 0, true,
      (HeapRef.clone ⟨1, 2⟩
        ({ mem := [⟨1, 4, Cell.value 7⟩, ⟨2, 8, Cell.counter ⟨1, 0⟩⟩], traced := 12 } : St Nat)).2⟩ : Fam Nat) :=
  fam_invariant_preserved 4 1 2
    ⟨1, 0, true, { mem := [⟨1, 4, Cell.value 7⟩, ⟨2, 8, Cell.counter ⟨1, 0⟩⟩], traced := 12 }⟩
    _ (by decide) (FamStep.clone _ (by decide))

/-- One step of the machine keeps the strong count at 0: no single
operation can raise it from 0. -/
theorem famStep_strong_zero (sz pv pc : Nat) (f f1 : Fam T)
    (hinv : FamInv pv pc f) (hzero : f.st.strongAt pc = 0)
    (hstep : FamStep sz pv pc f f1) :
    f1.st.strongAt pc = 0 := by
  obtain ⟨hpv0, hpc0, hpvpc, hnd, hAliveIff, hCtr, hStrongIff, hOwn⟩ := hinv
  have hsh0 : f.strongH = 0 := by
    cases hAl : f.st.isAlive pc with
    | true =>
      have h1 : f.st.strongAt pc = f.strongH := by
        simpa using St.strongAt_of_counterAt _ _ _ (hCtr hAl)
      omega
    | false =>
      by_contra hne
      have hpos := hAliveIff.mpr (by omega)
      rw [hAl] at hpos
      exact Bool.noConfusion hpos
  cases hstep with
  | clone h => omega
  | downgrade h => omega
  | dropStrong s1 h hd => omega
  | unwrapOk hv1 s1 h hu => omega
  | unwrapErr hr1 s1 h hu => omega
  | weakClone h =>
    have hAliveT : f.st.isAlive pc = true := hAliveIff.mpr (by omega)
    have hCtrS := hCtr hAliveT
    show (HeapRefWeak.clone ⟨pv, pc⟩ f.st).2.strongAt pc = 0
    rw [HeapRefWeak.cloneWeak_st]
    have hctr1 : (f.st.updateCounter pc
        (fun c => { c with weak := c.weak + 1 })).counterAt pc =
        some ⟨f.strongH, f.weakH + 1⟩ := by
      simpa using St.counterAt_updateCounter_self f.st pc
        (fun c => { c with weak := c.weak + 1 }) _ hCtrS
    have h2 : (f.st.updateCounter pc
        (fun c => { c with weak := c.weak + 1 })).strongAt pc = f.strongH := by
      simpa using St.strongAt_of_counterAt _ _ _ hctr1
    rw [h2]
    exact hsh0
  | dropWeak s1 h hd =>
    have hAliveT : f.st.isAlive pc = true := hAliveIff.mpr (by omega)
    have hCtrS := hCtr hAliveT
    by_cases hw2 : 2 ≤ f.weakH
    · rw [weakDropOp_spec_keep ⟨pv, pc⟩ f.st ⟨f.strongH, f.weakH⟩ hCtrS
        (by simp; omega)] at hd
      injection hd with hd1
      subst hd1
      have hctr1 : (f.st.updateCounter pc
          (fun c => { c with weak := c.weak - 1 })).counterAt pc =
          some ⟨f.strongH, f.weakH - 1⟩ := by
        simpa using St.counterAt_updateCounter_self f.st pc
          (fun c => { c with weak := c.weak - 1 }) _ hCtrS
      have h2 : (f.st.updateCounter pc
          (fun c => { c with weak := c.weak - 1 })).strongAt pc = f.strongH := by
        simpa using St.strongAt_of_counterAt _ _ _ hctr1
      show (f.st.updateCounter pc (fun c => { c with weak := c.weak - 1 })).strongAt pc = 0
      rw [h2]
      exact hsh0
    · rw [weakDropOp_spec_free ⟨pv, pc⟩ f.st ⟨f.strongH, f.weakH⟩ hCtrS
        (by simpa using hsh0) (by simp; omega) hpc0] at hd
      injection hd with hd1
      subst hd1
      apply St.strongAt_eq_zero_of_not_alive
      rw [St.isAlive_decTrace]
      exact St.isAlive_free_self _ _ (St.addrNodup_updateCounter _ _ _ hnd)
  | upgradeNone h hu =>
    by_cases hsz : HeapRefWeak.strong ⟨pv, pc⟩ f.st = 0
    · show (HeapRefWeak.upgrade ⟨pv, pc⟩ f.st).2.strongAt pc = 0
      rw [upgrade_spec_zero _ _ hsz]
      exact hzero
    · exact absurd hzero hsz
  | upgradeSome hr h hu =>
    by_cases hsz : HeapRefWeak.strong ⟨pv, pc⟩ f.st = 0
    · rw [upgrade_spec_zero _ _ hsz] at hu
      simp at hu
    · exact absurd hzero hsz

/-- C5: no resurrection — from any configuration of one shared family
that satisfies the family invariant and whose strong count reads 0, after
every finite sequence of subsequent operations of the state machine the
strong count still reads 0: once 0, it remains 0 forever. -/
theorem strong_count_never_resurrects (sz pv pc : Nat) (f f1 : Fam T)
    (hinv : FamInv pv pc f) (hzero : f.st.strongAt pc = 0)
    (hsteps : Relation.ReflTransGen (FamStep sz pv pc) f f1) :
    f1.st.strongAt pc = 0 := by
  have key : FamInv pv pc f1 ∧ f1.st.strongAt pc = 0 := by
    induction hsteps with
    | refl => exact ⟨hinv, hzero⟩
    | tail hab hbc ih =>
      exact ⟨famStep_preserves_inv sz pv pc _ _ ih.1 hbc,
        famStep_strong_zero sz pv pc _ _ ih.1 ih.2 hbc⟩
  exact key.2

/-- Witness for C5: with strong already 0 and one weak handle, cloning the
weak handle leaves the strong count at 0. -/
theorem strong_count_never_resurrects_witness :
    (⟨0, 1 + 1, true,
      (HeapRefWeak.clone ⟨1, 2⟩
        ({ mem := [⟨2, 8, Cell.counter ⟨0, 1⟩⟩], traced := 8 } : St Nat)).2⟩ : Fam Nat).st.strongAt 2 = 0 :=
  strong_count_never_resurrects 4 1 2
    ⟨0, 1, true, { mem := [⟨2, 8, Cell.counter ⟨0, 1⟩⟩], traced := 8 }⟩
    _ (by decide) (by decide)
    (Relation.ReflTransGen.single (FamStep.weakClone _ (by decide)))

end PicoMalloc
